import Mathlib

/-!
Verification development for the scraping engine in `backend/scraping/`
(planner, page collector, structural analyzer, refiner, engine orchestration).

The Python source is shallowly embedded: pure functions become Lean
functions over `List Char` / `String`, Python `Optional[T]` becomes
`Option T`, Python dictionaries become association lists preserving
insertion order, and floating-point scores/ratios are modelled over `ℚ`.
Python standard-library helpers used by the source (`urllib.parse`,
`re` patterns, `str` methods) are modelled as executable Lean functions
restricted to the ASCII inputs exercised by this code base; each such model
carries a doc comment naming the library function it embeds.
-/

set_option maxRecDepth 10000

namespace LlmScrape

/-! ## Python string primitives -/

/-- The ASCII whitespace characters matched by Python `str.strip`, `str.split`
and the regex class backslash-s (space, tab, newline, carriage return,
vertical tab, form feed). -/
def pyIsSpace (c : Char) : Bool :=
  c = ' ' ∨ c = '\t' ∨ c = '\n' ∨ c = '\r' ∨ c = Char.ofNat 11 ∨ c = Char.ofNat 12

/-- ASCII lower-casing of one character, the effect of Python `str.lower`
on the ASCII inputs handled here. -/
def lowChar (c : Char) : Char := c.toLower

/-- Python `str.lower` (ASCII scope). -/
def pyLower (s : String) : String := ⟨s.data.map lowChar⟩

/-- Python `str.lstrip()` on a character list. -/
def lstripL (l : List Char) : List Char := l.dropWhile pyIsSpace

/-- Python `str.rstrip()` on a character list. -/
def rstripL (l : List Char) : List Char := (l.reverse.dropWhile pyIsSpace).reverse

/-- Python `str.strip()` on a character list. -/
def stripL (l : List Char) : List Char := rstripL (lstripL l)

/-- Python `str.strip()`. -/
def pyStrip (s : String) : String := ⟨stripL s.data⟩

/-- Python `str.rstrip(chars)`: strip any of the given characters from the end. -/
def rstripSet (bad : List Char) (l : List Char) : List Char :=
  (l.reverse.dropWhile (fun c => bad.contains c)).reverse

/-- Does `sub` occur as a contiguous substring? (Python `in` on strings.) -/
def isSubstrOf (sub : List Char) : List Char → Bool
  | [] => decide (sub = [])
  | c :: rest => startsL sub (c :: rest) || isSubstrOf sub rest
where
  /-- Is the first list a prefix of the second? -/
  startsL : List Char → List Char → Bool
    | [], _ => true
    | _ :: _, [] => false
    | a :: as, b :: bs => a = b && startsL as bs

/-- Python `needle in haystack` for strings. -/
def pyContains (haystack needle : String) : Bool :=
  isSubstrOf needle.data haystack.data

/-- Split a character list on a single separator character, keeping empty
segments (Python `str.split(sep)` for a one-character separator). -/
def splitCharAux (sep : Char) (cur : List Char) : List Char → List (List Char)
  | [] => [cur.reverse]
  | c :: r =>
    if c = sep then cur.reverse :: splitCharAux sep [] r
    else splitCharAux sep (c :: cur) r

/-- Python `str.split(sep)` for a one-character separator. -/
def pySplitChar (sep : Char) (s : String) : List String :=
  (splitCharAux sep [] s.data).map List.asString

/-- Python `str.split()` (split on whitespace runs, dropping empties),
on a character list. -/
def splitWsAux (cur : List Char) : List Char → List (List Char)
  | [] => if cur = [] then [] else [cur.reverse]
  | c :: r =>
    if pyIsSpace c then
      if cur = [] then splitWsAux [] r else cur.reverse :: splitWsAux [] r
    else splitWsAux (c :: cur) r

/-- Python `str.split()`. -/
def pySplitWs (s : String) : List String :=
  (splitWsAux [] s.data).map List.asString

/-- Python `sep.join(parts)`. -/
def pyJoin (sep : String) (parts : List String) : String :=
  match parts with
  | [] => ""
  | p :: rest => rest.foldl (fun acc q => acc ++ sep ++ q) p

/-- `list(dict.fromkeys(xs))`: deduplicate preserving first-seen order. -/
def pyDedupAux (seen : List String) : List String → List String
  | [] => []
  | x :: r => if seen.contains x then pyDedupAux seen r else x :: pyDedupAux (x :: seen) r

/-- `list(dict.fromkeys(xs))`: deduplicate preserving first-seen order. -/
def pyDedup (l : List String) : List String := pyDedupAux [] l

/-- Stable insertion into a sorted list, for the model of Python `sorted`. -/
def sortedInsert (x : String) : List String → List String
  | [] => [x]
  | y :: r => if decide (y ≤ x) then y :: sortedInsert x r else x :: y :: r

/-- Python `sorted(xs)` for strings (stable insertion sort; Python string
comparison is lexicographic on code points, as is Lean's). -/
def pySorted : List String → List String
  | [] => []
  | x :: r => sortedInsert x (pySorted r)

/-- An option is Python-truthy when it holds a non-empty string
(`if opt:` on an `Optional[str]`). -/
def truthyOpt (o : Option String) : Bool :=
  match o with
  | none => false
  | some s => s ≠ ""

/-! ## Page results (`types.py`, `PageContent`) -/

/-- `PageContent` from `types.py`: the outcome of fetching one page. -/
structure PageContent where
  url : String
  final_url : String
  status_code : Option Int
  html : String
  error : Option String := none
deriving DecidableEq, Repr

/-- `PageContent.success` (`types.py` lines 191-192): Python
`not self.error and bool(self.html)`; `not self.error` is true when the
error is `None` or the empty string. -/
def PageContent.success (p : PageContent) : Bool :=
  (match p.error with | none => true | some e => e = "") && p.html ≠ ""

/-! ## Page collector (`fetcher.py`) -/

/-- The outcome of one HTTP request, abstracting the network side of
`_HttpFallbackFetcher._fetch_single` (`fetcher.py` lines 225-246): a
successful response, an error status raised by `raise_for_status`, or a
transport-level failure message.  A task-level exception captured by
`asyncio.gather` in `_HttpFallbackFetcher.fetch_all` produces the same
`PageContent` as the `failure` branch, so it is folded into it. -/
inductive HttpReply where
  | success (final_url : String) (status : Int) (text : String)
  | statusError (final_url : String) (status : Int) (text : String) (reason : String)
  | failure (message : String)
deriving DecidableEq, Repr

/-- `_HttpFallbackFetcher._fetch_single` (`fetcher.py` lines 225-246),
parameterized by the network oracle `reply`. -/
def fetchSingle (reply : String → HttpReply) (url : String) : PageContent :=
  match reply url with
  | .success f s t => { url := url, final_url := f, status_code := some s, html := t, error := none }
  | .statusError f s t r =>
      { url := url, final_url := f, status_code := some s, html := t,
        error := some ("HTTP " ++ toString s ++ ": " ++ r) }
  | .failure m => { url := url, final_url := url, status_code := none, html := "", error := some m }

/-- `_HttpFallbackFetcher.fetch_all` (`fetcher.py` lines 208-223): one
`PageContent` per input URL, in input order. -/
def HttpFallbackFetcher.fetch_all (reply : String → HttpReply) (urls : List String) :
    List PageContent :=
  if urls = [] then [] else urls.map (fetchSingle reply)

/-- `BrowserCollector.fetch_all` (`fetcher.py` lines 66-80) in the state
where browser automation is unavailable (`async_playwright is None`):
deduplicate the input URLs preserving first-seen order, then fetch each
via the HTTP fallback.  Returns (pages, warnings, metadata). -/
def BrowserCollector.fetchAllUnavailable (reply : String → HttpReply) (urls : List String) :
    List PageContent × List String × List (String × String) :=
  let urlsList := pyDedup urls
  if urlsList = [] then ([], [], [("transport", "browser")])
  else
    (HttpFallbackFetcher.fetch_all reply urlsList,
     ["Playwright is unavailable; falling back to HTTP fetching."],
     [("transport", "http")])

/-! ## Plan data model (`types.py`) -/

/-- `FieldSpec` from `types.py`.  `synonyms` is stored as it is after
`__post_init__`: lower-cased, deduplicated and sorted.  The source field
`allow_partial` is named `allow_truncated` here. -/
structure FieldSpec where
  name : String
  synonyms : List String
  value_type : String := "text"
  attribute_preferences : List String := []
  allow_truncated : Bool := false
deriving DecidableEq, Repr

/-- `FieldSpec.clone` (`types.py` lines 24-33). -/
def FieldSpec.clone (f : FieldSpec) (name : Option String := none) : FieldSpec :=
  { name := name.getD f.name,
    synonyms := f.synonyms,
    value_type := f.value_type,
    attribute_preferences := f.attribute_preferences,
    allow_truncated := f.allow_truncated }

/-- `InteractionStep` from `types.py`. -/
structure InteractionStep where
  kind : String
  selector : Option String := none
  count : Int := 1
  wait_ms : Int := 0
  value : Option String := none
  note : Option String := none
deriving DecidableEq, Repr

/-- `PaginationPlan` from `types.py`. -/
structure PaginationPlan where
  mode : String
  parameter : Option String := none
  template : Option String := none
  start : Int := 1
  step : Int := 1
deriving DecidableEq, Repr

/-- `ScrapePlan` from `types.py`. -/
structure ScrapePlan where
  seed_url : String
  fields : List FieldSpec
  description : String
  extra_urls : List String := []
  interactions : List InteractionStep := []
  pagination : Option PaginationPlan := none
  requested_page_count : Option Int := none
  notes : List String := []
deriving DecidableEq, Repr

/-! ## Records and the engine page loop (`engine.py`) -/

/-- An extracted record: a Python `dict[str, str]` as an insertion-ordered
association list. -/
abbrev Record := List (String × String)

/-- Python `item.get(key, "")` on a record. -/
def recGet (item : Record) (key : String) : String :=
  match item.find? (fun p => p.1 = key) with
  | some p => p.2
  | none => ""

/-- `page.final_url or page.url` from `ScrapingEngine.run` (`engine.py`
line 71). -/
def pageUrl (p : PageContent) : String :=
  if p.final_url ≠ "" then p.final_url else p.url

/-- `f"{page_url}: {page.error or 'unknown error'}"` from
`ScrapingEngine.run` (`engine.py` line 74). -/
def errorEntry (p : PageContent) : String :=
  pageUrl p ++ ": " ++
    (match p.error with
     | some e => if e = "" then "unknown error" else e
     | none => "unknown error")

/-- The per-page loop of `ScrapingEngine.run` (`engine.py` lines 70-82),
parameterized by the analyzer oracle `extract` (html, base_url) ↦
(records, page warnings).  Returns (items, errors, source_urls, warnings
added by the loop). -/
def processPages (extract : String → String → List Record × List String) :
    List PageContent → List Record × List String × List String × List String
  | [] => ([], [], [], [])
  | p :: rest =>
    let u := pageUrl p
    if ¬ p.success then
      let (i, e, s, w) := processPages extract rest
      (i, errorEntry p :: e, u :: s, w)
    else
      let (extracted, pw) := extract p.html u
      let w0 := (if extracted = [] then [u ++ ": no matching data located."] else []) ++
        pw.map (fun m => u ++ ": " ++ m)
      let (i, e, s, w) := processPages extract rest
      (extracted ++ i, e, u :: s, w0 ++ w)

/-! ## Refiner (`pipeline.py`, `DataRefiner`) -/

/-- `_WHITESPACE_RE.sub(" ", value)`: collapse every maximal run of
whitespace characters into a single space. -/
def collapseWs : List Char → List Char
  | [] => []
  | [c] => if pyIsSpace c then [' '] else [c]
  | c1 :: c2 :: r =>
    if pyIsSpace c1 ∧ pyIsSpace c2 then collapseWs (c2 :: r)
    else (if pyIsSpace c1 then ' ' else c1) :: collapseWs (c2 :: r)

/-- `DataRefiner._normalize_value` (`pipeline.py` lines 48-52): collapse
internal whitespace runs to one space, then strip.  (All record values are
strings here, so the `isinstance` guard is vacuous.) -/
def normalizeValue (v : String) : String := ⟨stripL (collapseWs v.data)⟩

/-- `{key: self._normalize_value(value) for key, value in item.items()}`
(`pipeline.py` line 25). -/
def normalizeRecord (item : Record) : Record :=
  item.map (fun p => (p.1, normalizeValue p.2))

/-- `DataRefiner._signature` (`pipeline.py` lines 54-63): the lowered
values of the non-(image/link)-typed fields in plan order; if the plan has
no such fields, the hyphen-joined sorted values of the record. -/
def DataRefiner.signature (item : Record) (fields : List FieldSpec) : List String :=
  let comps := fields.filterMap (fun f =>
    if f.value_type = "image" ∨ f.value_type = "link" then none
    else some (pyLower (recGet item f.name)))
  if comps = [] then [pyJoin "-" (pySorted (item.map (fun p => p.2)))]
  else comps

/-- `DataRefiner._field_population` (`pipeline.py` lines 65-69): for each
planned field, the number of records with a truthy value for it. -/
def DataRefiner.fieldPopulation (items : List Record) (fields : List FieldSpec) :
    List (String × Nat) :=
  fields.map (fun f => (f.name, (items.filter (fun it => recGet it f.name ≠ "")).length))

/-- A value of the stats dictionary returned by `DataRefiner.refine`. -/
inductive StatValue where
  | num (n : Nat)
  | popMap (m : List (String × Nat))
deriving DecidableEq, Repr

/-- Association-list lookup on a stats dictionary. -/
def lookupStat (key : String) (stats : List (String × StatValue)) : Option StatValue :=
  match stats.find? (fun p => p.1 = key) with
  | some p => some p.2
  | none => none

/-- The cleaning/deduplication loop of `DataRefiner.refine` (`pipeline.py`
lines 24-31), threading the `seen_signatures` set.  Returns the cleaned
records and the number of duplicates removed. -/
def refineLoop (fields : List FieldSpec) (seen : List (List String)) :
    List Record → List Record × Nat
  | [] => ([], 0)
  | item :: rest =>
    let normalized := normalizeRecord item
    let sig := DataRefiner.signature normalized fields
    if seen.contains sig then
      ((refineLoop fields seen rest).1, (refineLoop fields seen rest).2 + 1)
    else
      (normalized :: (refineLoop fields (sig :: seen) rest).1,
       (refineLoop fields (sig :: seen) rest).2)

/-- `DataRefiner.refine` (`pipeline.py` lines 16-46): returns
(cleaned records, stats, warnings). -/
def DataRefiner.refine (items : List Record) (plan : ScrapePlan) :
    List Record × List (String × StatValue) × List String :=
  if items = [] then
    ([], [("records_before_cleaning", .num 0), ("records_after_cleaning", .num 0),
          ("duplicates_removed", .num 0)], [])
  else
    let (cleaned, duplicates_removed) := refineLoop plan.fields [] items
    let field_population := DataRefiner.fieldPopulation cleaned plan.fields
    let warnings := field_population.filterMap (fun fp =>
      if fp.2 = 0 then
        some ("No values found for " ++ (Char.ofNat 39).toString ++ fp.1 ++
          (Char.ofNat 39).toString ++ " after normalization.")
      else none)
    let stats := [("records_before_cleaning", StatValue.num items.length),
                  ("records_after_cleaning", StatValue.num cleaned.length),
                  ("duplicates_removed", StatValue.num duplicates_removed),
                  ("field_population", StatValue.popMap field_population)]
    (cleaned, stats, warnings)

/-! ## Outcome serialization: field coverage (`types.py`, `ScrapeOutcome.to_dict`) -/

/-- Round a rational to the nearest integer, ties to even: the rounding
used by Python `round` (modelled over `ℚ` in place of binary floats). -/
def roundHalfEven (q : ℚ) : ℤ :=
  let fl := ⌊q⌋
  let fr := q - fl
  if fr < 1/2 then fl
  else if 1/2 < fr then fl + 1
  else if fl % 2 = 0 then fl else fl + 1

/-- Python `round(x, 3)` over `ℚ`. -/
def round3 (q : ℚ) : ℚ := (roundHalfEven (q * 1000) : ℚ) / 1000

/-- Python `item.get(field.name)` truthiness: the record holds a non-empty
value for the field. -/
def recTruthy (item : Record) (key : String) : Bool := recGet item key ≠ ""

/-- The `field_coverage` component of `ScrapeOutcome.to_dict` (`types.py`
lines 206-215): per-field `round(hits / total, 3)` when there are items,
else `0.0` for every planned field. -/
def ScrapeOutcome.field_coverage (items : List Record) (fields : List FieldSpec) :
    List (String × ℚ) :=
  if items.length ≠ 0 then
    fields.map (fun f =>
      (f.name,
        round3 (((items.filter (fun it => recTruthy it f.name)).length : ℚ) /
          (items.length : ℚ))))
  else fields.map (fun f => (f.name, 0))

/-! ## `urllib.parse` models

Executable models of the standard-library URL helpers used by `types.py`
and `planner.py`, faithful to CPython on the ASCII http(s) URLs this code
operates on. -/

/-- The result of `urllib.parse.urlparse`. -/
structure PyParseResult where
  scheme : String
  netloc : String
  path : String
  params : String
  query : String
  fragment : String
deriving DecidableEq, Repr

/-- Characters allowed in a URL scheme (letters, digits, plus, minus, dot). -/
def isSchemeChar (c : Char) : Bool :=
  c.isAlpha ∨ c.isDigit ∨ c = '+' ∨ c = '-' ∨ c = '.'

/-- Split a leading `scheme:` off a URL if the part before the first colon
is non-empty and made of scheme characters (CPython `urlsplit`). -/
def splitScheme (l : List Char) : List Char × List Char :=
  match l.takeWhile (fun c => c ≠ ':') with
  | [] => ([], l)
  | pre =>
    if pre.length < l.length ∧ pre.all isSchemeChar then
      (pre.map lowChar, l.drop (pre.length + 1))
    else ([], l)

/-- Take the netloc: everything up to the first of `/`, `?`, `#`. -/
def splitNetloc (l : List Char) : List Char × List Char :=
  let n := l.takeWhile (fun c => c ≠ '/' ∧ c ≠ '?' ∧ c ≠ '#')
  (n, l.drop n.length)

/-- Split a list at the first occurrence of a delimiter character, the
delimiter removed; the whole list and `[]` when absent. -/
def splitFirst (d : Char) (l : List Char) : List Char × List Char :=
  let pre := l.takeWhile (fun c => c ≠ d)
  if pre.length < l.length then (pre, l.drop (pre.length + 1)) else (l, [])

/-- CPython `urlparse._splitparams`: split `;params` off the last path
segment. -/
def splitParams (l : List Char) : List Char × List Char :=
  let searchFrom :=
    if l.contains '/' then l.length - (l.reverse.takeWhile (fun c => c ≠ '/')).length
    else 0
  let tail_ := l.drop searchFrom
  let pre := tail_.takeWhile (fun c => c ≠ ';')
  if pre.length < tail_.length then
    (l.take (searchFrom + pre.length), tail_.drop (pre.length + 1))
  else (l, [])

/-- `urllib.parse.urlparse` (ASCII scope; `allow_fragments=True`). -/
def pyUrlparse (s : String) : PyParseResult :=
  let (scheme, rest) := splitScheme s.data
  let (netloc, rest) :=
    match rest with
    | '/' :: '/' :: r => splitNetloc r
    | _ => ([], rest)
  let (rest, fragment) := splitFirst '#' rest
  let (path0, query) := splitFirst '?' rest
  let (path, params) := splitParams path0
  { scheme := ⟨scheme⟩, netloc := ⟨netloc⟩, path := ⟨path⟩,
    params := ⟨params⟩, query := ⟨query⟩, fragment := ⟨fragment⟩ }

/-- `urllib.parse.urlunsplit`. -/
def pyUrlunsplit (scheme netloc url query fragment : String) : String :=
  let url :=
    if netloc ≠ "" ∨ (url.data.take 2 = ['/', '/']) then
      (if url ≠ "" ∧ url.data.take 1 ≠ ['/'] then "//" ++ netloc ++ "/" ++ url
       else "//" ++ netloc ++ url)
    else url
  let url := if scheme ≠ "" then scheme ++ ":" ++ url else url
  let url := if query ≠ "" then url ++ "?" ++ query else url
  if fragment ≠ "" then url ++ "#" ++ fragment else url

/-- `urllib.parse.urlunparse`. -/
def pyUrlunparse (r : PyParseResult) : String :=
  let url := if r.params ≠ "" then r.path ++ ";" ++ r.params else r.path
  pyUrlunsplit r.scheme r.netloc url r.query r.fragment

/-- Numeric value of one hexadecimal digit. -/
def hexVal (c : Char) : Option Nat :=
  if '0' ≤ c ∧ c ≤ '9' then some (c.toNat - '0'.toNat)
  else if 'a' ≤ c ∧ c ≤ 'f' then some (c.toNat - 'a'.toNat + 10)
  else if 'A' ≤ c ∧ c ≤ 'F' then some (c.toNat - 'A'.toNat + 10)
  else none

/-- Percent-decoding of `%XX` escapes (single-byte scope), leaving invalid
escapes untouched: `urllib.parse.unquote` for ASCII data. -/
def unquoteL : List Char → List Char
  | [] => []
  | '%' :: c1 :: c2 :: r =>
    match hexVal c1, hexVal c2 with
    | some h1, some h2 => Char.ofNat (h1 * 16 + h2) :: unquoteL r
    | _, _ => '%' :: unquoteL (c1 :: c2 :: r)
  | c :: r => c :: unquoteL r

/-- `urllib.parse.unquote_plus` (ASCII scope): plus signs become spaces,
then percent-escapes are decoded. -/
def pyUnquotePlus (s : String) : String :=
  ⟨unquoteL (s.data.map (fun c => if c = '+' then ' ' else c))⟩

/-- Characters never quoted by `urllib.parse.quote_plus`. -/
def isQuoteSafe (c : Char) : Bool :=
  c.isAlpha ∨ c.isDigit ∨ c = '_' ∨ c = '.' ∨ c = '-' ∨ c = '~'

/-- One uppercase hexadecimal digit. -/
def hexDigit (n : Nat) : Char :=
  if n < 10 then Char.ofNat ('0'.toNat + n) else Char.ofNat ('A'.toNat + n - 10)

/-- `urllib.parse.quote_plus` (ASCII scope): spaces become `+`, unsafe
characters become `%XX`. -/
def pyQuotePlus (s : String) : String :=
  ⟨s.data.flatMap (fun c =>
    if isQuoteSafe c then [c]
    else if c = ' ' then ['+']
    else ['%', hexDigit (c.toNat / 16 % 16), hexDigit (c.toNat % 16)])⟩

/-- `urllib.parse.parse_qsl(query, keep_blank_values=True)` (ASCII scope). -/
def pyParseQsl (query : String) : List (String × String) :=
  (pySplitChar '&' query).filterMap (fun nv =>
    if nv = "" then none
    else
      let (n, v) := splitFirst '=' nv.data
      if (n.length : Nat) + 1 ≤ nv.length then
        some (pyUnquotePlus ⟨n⟩, pyUnquotePlus ⟨v⟩)
      else some (pyUnquotePlus ⟨n⟩, ""))

/-- `dict(pairs)`: later bindings overwrite earlier ones in place. -/
def pyDictOfList (l : List (String × String)) : List (String × String) :=
  l.foldl (fun acc p => dictSet acc p.1 p.2) []
where
  /-- `d[k] = v` on an insertion-ordered dictionary. -/
  dictSet : List (String × String) → String → String → List (String × String)
    | [], k, v => [(k, v)]
    | (k0, v0) :: r, k, v =>
      if k0 = k then (k0, v) :: r else (k0, v0) :: dictSet r k v

/-- `urllib.parse.urlencode(query, doseq=True)` for string values. -/
def pyUrlencode (l : List (String × String)) : String :=
  pyJoin "&" (l.map (fun p => pyQuotePlus p.1 ++ "=" ++ pyQuotePlus p.2))

/-- `urllib.parse.urljoin` modelled for the http(s) cases this code
exercises: absolute URLs are kept, scheme-relative and host-relative
references are resolved against the base, other references replace the
last path segment of the base. -/
def pyUrljoin (base url : String) : String :=
  if url = "" then base
  else if pyContains url "://" then url
  else
    let b := pyUrlparse base
    if url.data.take 2 = ['/', '/'] then b.scheme ++ ":" ++ url
    else if url.data.take 1 = ['/'] then b.scheme ++ "://" ++ b.netloc ++ url
    else
      let dir := (b.path.data.reverse.dropWhile (fun c => c ≠ '/')).reverse
      b.scheme ++ "://" ++ b.netloc ++ ⟨dir⟩ ++ url

/-! ## Pagination URL generation and plan expansion (`types.py`) -/

/-- `PaginationPlan._build_query_url` (`types.py` lines 94-108). -/
def PaginationPlan.buildQueryUrl (p : PaginationPlan) (base_url : String)
    (page_number : Int) : String :=
  let parsed := pyUrlparse base_url
  let query := pyDictOfList (pyParseQsl parsed.query)
  let query := pyDictOfList.dictSet query (p.parameter.getD "page") (toString page_number)
  let encoded := pyUrlencode query
  pyUrlunparse { parsed with query := encoded }

/-- Python `str.format(page=n)` for the templates built by the planner:
replace each `{page}` placeholder with the page number. -/
def formatPage (template : List Char) (n : Int) : List Char :=
  match template with
  | [] => []
  | '\x7b' :: 'p' :: 'a' :: 'g' :: 'e' :: '\x7d' :: r => (toString n).data ++ formatPage r n
  | c :: r => c :: formatPage r n

/-- `PaginationPlan._build_path_url` (`types.py` lines 110-122). -/
def PaginationPlan.buildPathUrl (p : PaginationPlan) (base_url : String)
    (page_number : Int) : String :=
  let parsed := pyUrlparse base_url
  let path : String := ⟨formatPage (p.template.getD "\x7b\x7d").data page_number⟩
  pyUrlunparse { parsed with path := path }

/-- The loop body of `PaginationPlan.generate_urls` (`types.py` lines
83-92), over the page offsets; the final `else` arm is the loop `break`. -/
def PaginationPlan.genLoop (p : PaginationPlan) (base_url : String) :
    List Int → List String
  | [] => []
  | offset :: rest =>
    if p.mode = "query" ∧ truthyOpt p.parameter then
      p.buildQueryUrl base_url (p.start + offset * p.step) :: p.genLoop base_url rest
    else if p.mode = "path" ∧ truthyOpt p.template then
      p.buildPathUrl base_url (p.start + offset * p.step) :: p.genLoop base_url rest
    else []

/-- `PaginationPlan.generate_urls` (`types.py` lines 77-92). -/
def PaginationPlan.generate_urls (p : PaginationPlan) (base_url : String)
    (limit : Int) : List String :=
  if limit ≤ 0 then []
  else p.genLoop base_url ((List.range limit.toNat).map (fun n => (n : Int)))

/-- The extra-URL loop of `ScrapePlan.expand_urls` (`types.py` lines
164-167): append until the limit is reached. -/
def expandExtrasLoop (limit : Int) (urls : List String) : List String → List String
  | [] => urls
  | u :: rest =>
    if (urls.length : Int) ≥ limit then urls
    else expandExtrasLoop limit (urls ++ [u]) rest

/-- The deduplication loop of `ScrapePlan.expand_urls` (`types.py` lines
170-177): keep first occurrences, stopping once the limit is reached. -/
def expandDedupLoop (limit : Int) (seen ordered : List String) :
    List String → List String
  | [] => ordered
  | u :: rest =>
    if seen.contains u then
      if (ordered.length : Int) ≥ limit then ordered
      else expandDedupLoop limit seen ordered rest
    else
      if (((ordered ++ [u]).length : Int)) ≥ limit then ordered ++ [u]
      else expandDedupLoop limit (u :: seen) (ordered ++ [u]) rest

/-- `ScrapePlan.expand_urls` (`types.py` lines 150-178). -/
def ScrapePlan.expand_urls (plan : ScrapePlan) (limit : Int) : List String :=
  let limit := max 1 limit
  let urls :=
    match plan.pagination with
    | some pg => (pg.generate_urls plan.seed_url limit).take limit.toNat
    | none => [plan.seed_url]
  let urls := expandExtrasLoop limit urls plan.extra_urls
  let ordered := expandDedupLoop limit [] [] urls
  if ordered = [] then [plan.seed_url] else ordered

/-! ## Field library (`types.py`, `default_field_library`) -/

/-- `default_field_library` (`types.py` lines 233-295) as an
insertion-ordered association list; each synonym list is stored as
`__post_init__` leaves it (lower-cased, deduplicated, sorted). -/
def default_field_library : List (String × FieldSpec) :=
  [("title", { name := "title", synonyms := ["heading", "headline", "title"] }),
   ("name",
     { name := "name", synonyms := ["company", "listing", "name", "names", "product"] }),
   ("description",
     { name := "description",
       synonyms := ["about", "description", "details", "overview", "summary"],
       allow_truncated := true }),
   ("price",
     { name := "price", synonyms := ["amount", "cost", "fee", "price", "rate", "salary"],
       value_type := "numeric" }),
   ("rating",
     { name := "rating", synonyms := ["rank", "rating", "review", "score", "stars"],
       value_type := "numeric" }),
   ("date",
     { name := "date",
       synonyms := ["date", "deadline", "posted", "published", "time", "updated"],
       value_type := "date" }),
   ("author",
     { name := "author", synonyms := ["author", "by", "creator", "seller", "writer"] }),
   ("location",
     { name := "location",
       synonyms := ["address", "city", "country", "location", "region", "state"] }),
   ("url",
     { name := "url", synonyms := ["href", "link", "source", "url", "website", "websites"],
       value_type := "link", attribute_preferences := ["href"] }),
   ("image",
     { name := "image", synonyms := ["image", "logo", "photo", "picture", "thumbnail"],
       value_type := "image",
       attribute_preferences := ["src", "data-src", "data-original", "data-lazy"] }),
   ("category",
     { name := "category", synonyms := ["category", "genre", "sector", "tag", "type"] })]

/-- `self._library.get(name)` for the association-list library. -/
def lookupLib (lib : List (String × FieldSpec)) (name : String) : Option FieldSpec :=
  match lib.find? (fun p => p.1 = name) with
  | some p => some p.2
  | none => none

/-! ## Planner scanners (`planner.py` regexes) -/

/-- Does the regex `https?://[^\s]+` (IGNORECASE) match starting at the
head of the list?  True when a case-insensitive `http://` or `https://`
is followed by at least one non-whitespace character. -/
def urlStartAt (l : List Char) : Bool :=
  ((l.take 8).map lowChar = "https://".data ∧ nonspaceAfter l 8) ∨
  ((l.take 7).map lowChar = "http://".data ∧ nonspaceAfter l 7)
where
  /-- Is there a non-whitespace character at position `n`? -/
  nonspaceAfter (l : List Char) (n : Nat) : Bool :=
    match l.drop n with
    | [] => false
    | c :: _ => ¬ pyIsSpace c

/-- `_URL_RE.findall(prompt)`: the non-overlapping matches of
`https?://[^\s]+` (IGNORECASE), scanned left to right.  Implemented as a
single pass: once a match begins, it extends to the next whitespace. -/
def scanUrlsAux (consuming : Bool) (cur : List Char) : List Char → List (List Char)
  | [] => if consuming then [cur.reverse] else []
  | c :: r =>
    if consuming then
      if pyIsSpace c then cur.reverse :: scanUrlsAux false [] r
      else scanUrlsAux true (c :: cur) r
    else
      if urlStartAt (c :: r) then scanUrlsAux true [c] r
      else scanUrlsAux false [] r

/-- The trailing punctuation stripped from matched URLs by
`PromptPlanner._extract_urls` (`planner.py` line 167): `.` `,` `)` and the
two quote characters. -/
def urlStripChars : List Char := ['.', ',', ')', Char.ofNat 39, Char.ofNat 34]

/-- `PromptPlanner._extract_urls` (`planner.py` lines 164-169). -/
def extract_urls (prompt : String) : List String :=
  (scanUrlsAux false [] prompt.data).map (fun m => ⟨rstripSet urlStripChars m⟩)

/-- Case-insensitive literal match at the head of the list; returns the
remainder on success. -/
def matchLit : List Char → List Char → Option (List Char)
  | [], l => some l
  | _ :: _, [] => none
  | a :: as, b :: bs => if lowChar b = a then matchLit as bs else none

/-- Consume at least one whitespace character. -/
def matchSpaces1 (l : List Char) : Option (List Char) :=
  match l with
  | c :: r => if pyIsSpace c then some (r.dropWhile pyIsSpace) else none
  | [] => none

/-- Consume at least one decimal digit; returns the digits and the rest. -/
def matchDigits1 (l : List Char) : Option (List Char × List Char) :=
  match l with
  | c :: r =>
    if c.isDigit then some (c :: r.takeWhile Char.isDigit, r.dropWhile Char.isDigit)
    else none
  | [] => none

/-- Decimal value of a digit string (Python `int` on regex-captured digits). -/
def digitsToNat (l : List Char) : Nat :=
  l.foldl (fun acc c => acc * 10 + (c.toNat - '0'.toNat)) 0

/-- Try `(?:first|top)\s+(\d+)\s+pages?` (IGNORECASE) at the head of the
list, returning the captured number. -/
def tryPageRangeAt (l : List Char) : Option Nat :=
  match (matchLit "first".data l).orElse (fun _ => matchLit "top".data l) with
  | none => none
  | some r1 =>
    match matchSpaces1 r1 with
    | none => none
    | some r2 =>
      match matchDigits1 r2 with
      | none => none
      | some (digits, r3) =>
        match matchSpaces1 r3 with
        | none => none
        | some r4 =>
          match matchLit "page".data r4 with
          | none => none
          | some _ => some (digitsToNat digits)

/-- `_PAGE_RANGE_RE.search(prompt)`: leftmost match of
`(?:first|top)\s+(\d+)\s+pages?`. -/
def searchPageRange : List Char → Option Nat
  | [] => none
  | c :: r =>
    match tryPageRangeAt (c :: r) with
    | some n => some n
    | none => searchPageRange r

/-- Try `(\d+)\s+pages?` at the head of the list. -/
def tryGenericCountAt (l : List Char) : Option Nat :=
  match matchDigits1 l with
  | none => none
  | some (digits, r1) =>
    match matchSpaces1 r1 with
    | none => none
    | some r2 =>
      match matchLit "page".data r2 with
      | none => none
      | some _ => some (digitsToNat digits)

/-- `_GENERIC_COUNT_RE.search(prompt)`: leftmost match of `(\d+)\s+pages?`. -/
def searchGenericCount : List Char → Option Nat
  | [] => none
  | c :: r =>
    match tryGenericCountAt (c :: r) with
    | some n => some n
    | none => searchGenericCount r

/-- `re.search(r"/page/(\d+)", path)`: leftmost match, returning the text
before the digits, the digits, and the text after the digits. -/
def searchPathPage : List Char → Option (List Char × List Char × List Char)
  | [] => none
  | c :: r =>
    match
      (match matchLit "/page/".data (c :: r) with
       | none => none
       | some r1 => matchDigits1 r1)
    with
    | some (digits, rest) => some ("/page/".data, digits, rest)
    | none =>
      match searchPathPage r with
      | some (pre, digits, rest) => some (c :: pre, digits, rest)
      | none => none

/-- The maximal runs of ASCII alphanumeric characters:
`re.findall(r"[a-zA-Z0-9]+", s)`. -/
def alnumTokensAux (cur : List Char) : List Char → List (List Char)
  | [] => if cur = [] then [] else [cur.reverse]
  | c :: r =>
    if c.isAlphanum then alnumTokensAux (c :: cur) r
    else if cur = [] then alnumTokensAux [] r
    else cur.reverse :: alnumTokensAux [] r

/-- Tokenize into alphanumeric words (`planner.py` line 173). -/
def alnumTokens (s : String) : List String :=
  (alnumTokensAux [] s.data).map List.asString

/-- `re.split(r"[,/]| and ", text)`: split on commas, slashes, and the
five-character separator, keeping empty segments. -/
def splitCommaSlashAnd (cur : List Char) : List Char → List (List Char)
  | [] => [cur.reverse]
  | ',' :: r => cur.reverse :: splitCommaSlashAnd [] r
  | '/' :: r => cur.reverse :: splitCommaSlashAnd [] r
  | ' ' :: 'a' :: 'n' :: 'd' :: ' ' :: rest => cur.reverse :: splitCommaSlashAnd [] rest
  | c :: r => splitCommaSlashAnd (c :: cur) r

/-- Python `s.split(" from ")[0]`: the text before the first occurrence of
the separator (the whole string when absent). -/
def beforeFrom : List Char → List Char
  | [] => []
  | ' ' :: 'f' :: 'r' :: 'o' :: 'm' :: ' ' :: _ => []
  | c :: r => c :: beforeFrom r

/-! ## Prompt planner (`planner.py`) -/

/-- `IntentSuggestion` from `planner.py`. -/
structure IntentSuggestion where
  seed_url : Option String := none
  extra_urls : List String := []
  field_names : List String := []
  max_pages : Option Int := none
  interactions : List InteractionStep := []
  notes : List String := []
deriving DecidableEq, Repr

/-- The dictionary key used when merging interaction steps
(`planner.py` lines 65-67). -/
def stepKey (s : InteractionStep) : String × String × String :=
  (s.kind, s.selector.getD "", s.value.getD "")

/-- Insertion-ordered dictionary update for interaction merging. -/
def stepDictSet (l : List ((String × String × String) × InteractionStep))
    (k : String × String × String) (v : InteractionStep) :
    List ((String × String × String) × InteractionStep) :=
  match l with
  | [] => [(k, v)]
  | (k0, v0) :: r => if k0 = k then (k0, v) :: r else (k0, v0) :: stepDictSet r k v

/-- The interaction merge of `IntentSuggestion.merge` (`planner.py` lines
64-68): key both lists into one insertion-ordered dictionary and keep its
values. -/
def mergeInteractions (self other : List InteractionStep) : List InteractionStep :=
  let d := self.foldl (fun acc s => stepDictSet acc (stepKey s) s) []
  let d := other.foldl (fun acc s => stepDictSet acc (stepKey s) s) d
  d.map (fun p => p.2)

/-- `IntentSuggestion.merge` (`planner.py` lines 48-71): right-biased merge
of an optional incoming suggestion. -/
def IntentSuggestion.merge (self : IntentSuggestion) (other : Option IntentSuggestion) :
    IntentSuggestion :=
  match other with
  | none => self
  | some o =>
    let s := self
    let s := if truthyOpt o.seed_url then { s with seed_url := o.seed_url } else s
    let s :=
      if o.extra_urls ≠ [] then
        { s with extra_urls := pyDedup (s.extra_urls ++ o.extra_urls) }
      else s
    let s :=
      if o.field_names ≠ [] then
        { s with field_names := pyDedup (s.field_names ++ o.field_names) }
      else s
    let s := if o.max_pages.isSome then { s with max_pages := o.max_pages } else s
    let s :=
      if o.interactions ≠ [] then
        { s with interactions := mergeInteractions s.interactions o.interactions }
      else s
    if o.notes ≠ [] then { s with notes := s.notes ++ o.notes } else s

/-- `PromptPlanner._infer_fields` (`planner.py` lines 171-192): the
token-membership pass over the library, then the comma/slash/and list
before " from ". -/
def infer_fields (lib : List (String × FieldSpec)) (prompt : String) : List FieldSpec :=
  let prompt_lower := pyLower prompt
  let tokens := alnumTokens prompt_lower
  let selected := lib.foldl (fun acc nf =>
    if tokens.contains nf.1 ∨ tokens.any (fun t => nf.2.synonyms.contains t) then
      acc ++ [nf.2.clone]
    else acc) []
  let candidates := splitCommaSlashAnd [] (beforeFrom prompt_lower.data)
  candidates.foldl (fun acc cand =>
    match ((splitWsAux [] (stripL cand)).map List.asString).getLast? with
    | none => acc
    | some value =>
      lib.foldl (fun acc2 nf =>
        if nf.2.synonyms.contains value ∧ ¬ acc2.any (fun spec => spec.name = nf.1) then
          acc2 ++ [nf.2.clone]
        else acc2) acc) selected

/-- `PromptPlanner._infer_requested_pages` (`planner.py` lines 194-202). -/
def infer_requested_pages (prompt : String) : Option Int :=
  match searchPageRange prompt.data with
  | some n => some (n : Int)
  | none =>
    match searchGenericCount prompt.data with
    | some n => some (n : Int)
    | none => none

/-- `PromptPlanner._infer_interactions` (`planner.py` lines 204-223). -/
def infer_interactions (prompt : String) : List InteractionStep :=
  let prompt_lower := pyLower prompt
  let scrolls :=
    if ["scroll", "infinite", "load more", "keep loading"].any
        (fun k => pyContains prompt_lower k) then
      [{ kind := "scroll", count := 5, wait_ms := 400,
         note := some "Auto-scroll inferred from prompt." : InteractionStep }]
    else []
  let waits :=
    if pyContains prompt_lower "wait" ∧
        ["appear", "render", "load"].any (fun w => pyContains prompt_lower w) then
      [{ kind := "wait", wait_ms := 1500,
         note := some "Extra wait inferred from prompt." : InteractionStep }]
    else []
  let clicks :=
    if pyContains prompt_lower "click" ∧ pyContains prompt_lower "more" then
      [{ kind := "click", selector := some "text=Load more",
         note := some ("Attempt to click " ++ (Char.ofNat 39).toString ++ "Load more" ++
           (Char.ofNat 39).toString ++ ".") : InteractionStep }]
    else []
  scrolls ++ waits ++ clicks

/-- `PromptPlanner._heuristic_intent` (`planner.py` lines 144-162). -/
def heuristic_intent (lib : List (String × FieldSpec)) (prompt : String)
    (max_pages : Option Int) : IntentSuggestion :=
  let urls := extract_urls prompt
  let field_specs := infer_fields lib prompt
  let interactions := infer_interactions prompt
  let requested_pages :=
    match max_pages with
    | some m => if m ≠ 0 then some m else infer_requested_pages prompt
    | none => infer_requested_pages prompt
  let notes := if urls = [] then ["Heuristic planner could not detect a URL."] else []
  { seed_url := urls.head?,
    extra_urls := urls.tail,
    field_names := field_specs.map (fun spec => spec.name),
    max_pages := requested_pages,
    interactions := interactions,
    notes := notes }

/-- `PromptPlanner._extract_page_parameter` (`planner.py` lines 264-268). -/
def extract_page_parameter (query : String) : String :=
  if pyContains query "page=" then "page"
  else if pyContains query "p=" then "p"
  else if pyContains query "pg=" then "pg"
  else "page"

/-- `PromptPlanner._extract_query_value` (`planner.py` lines 270-274). -/
def extract_query_value (query key : String) : Option String :=
  let hits := (pySplitChar '&' query).filterMap (fun chunk =>
    match matchCase chunk.data (key.data ++ ['=']) with
    | some rest => some (String.mk rest)
    | none => none)
  hits.head?
where
  /-- Case-sensitive literal prefix match, returning the remainder. -/
  matchCase : List Char → List Char → Option (List Char)
    | l, [] => some l
    | [], _ :: _ => none
    | b :: bs, a :: as => if b = a then matchCase bs as else none

/-- Python `int(s)` on an optional-sign decimal string, `None` on anything
else (the `ValueError` path). -/
def pyInt (s : String) : Option Int :=
  let l := stripL s.data
  match l with
  | '-' :: ds => if ds ≠ [] ∧ ds.all Char.isDigit then some (-(digitsToNat ds : Int)) else none
  | '+' :: ds => if ds ≠ [] ∧ ds.all Char.isDigit then some ((digitsToNat ds : Int)) else none
  | ds => if ds ≠ [] ∧ ds.all Char.isDigit then some ((digitsToNat ds : Int)) else none

/-- `PromptPlanner._infer_pagination` (`planner.py` lines 225-243). -/
def infer_pagination (url : String) : Option PaginationPlan :=
  let parsed := pyUrlparse url
  let query := parsed.query
  if pyContains query "page=" then
    let key := extract_page_parameter query
    let start :=
      match pyInt ((extract_query_value query key).getD "1") with
      | some n => n
      | none => 1
    some { mode := "query", parameter := some key, start := start }
  else
    match searchPathPage parsed.path.data with
    | some (pre, digits, rest) =>
      some { mode := "path",
             template := some ⟨pre ++ "\x7bpage\x7d".data ++ rest⟩,
             start := (digitsToNat digits : Int) }
    | none => none

/-- `PromptPlanner._build_description` (`planner.py` lines 245-262). -/
def build_description (seed_url : String) (fields : List FieldSpec)
    (pagination : Option PaginationPlan) (requested_pages : Option Int)
    (interactions : List InteractionStep) : String :=
  let field_names := pyJoin ", " (fields.map (fun f => f.name))
  let parts := ["Extract " ++ field_names ++ " from " ++ seed_url]
  let parts := parts ++ (if pagination.isSome then ["scan paginated content"] else [])
  let parts := parts ++
    (match requested_pages with
     | some n => if n ≠ 0 then ["limit to " ++ toString n ++ " page(s)"] else []
     | none => [])
  let actions := interactions.map (fun step => step.kind)
  let parts := parts ++ (if actions ≠ [] then ["pre-actions: " ++ pyJoin ", " actions] else [])
  pyJoin "; " parts

/-- One step of `PromptPlanner._resolve_fields` (`planner.py` lines
276-289): exact library-name match first, else the first library field
with a matching synonym, skipping fields already selected. -/
def resolveStep (lib : List (String × FieldSpec)) (resolved : List FieldSpec)
    (name : String) : List FieldSpec :=
  match lookupLib lib name with
  | some candidate =>
    if ¬ resolved.any (fun spec => spec.name = candidate.name) then
      resolved ++ [candidate.clone]
    else resolveSyn lib resolved name
  | none => resolveSyn lib resolved name
where
  /-- The synonym-scan loop over the library values. -/
  resolveSyn (lib : List (String × FieldSpec)) (resolved : List FieldSpec)
      (name : String) : List FieldSpec :=
    match lib.find? (fun nf =>
      nf.2.synonyms.contains (pyLower name) &&
        ¬ resolved.any (fun spec => spec.name = nf.2.name)) with
    | some nf => resolved ++ [nf.2.clone]
    | none => resolved

/-- `PromptPlanner._resolve_fields` (`planner.py` lines 276-289). -/
def resolve_fields (lib : List (String × FieldSpec)) (field_names : List String) :
    List FieldSpec :=
  field_names.foldl (resolveStep lib) []

/-- The default field names configured by `PlannerSettings` in
`PromptPlanner.__init__` / `ScrapingEngine.__init__`. -/
def default_fields : List String := ["title", "description", "url"]

/-- The merged intent computed by `PromptPlanner.plan` (`planner.py` lines
99-104): heuristic intent, the annotated model suggestion merged on top,
then an explicit `max_pages` override.  `model_result` is the value
returned by the external intent model (`_query_intent_model` returns it
with an extra note appended, and `None` on any failure). -/
def mergedIntent (prompt : String) (max_pages : Option Int)
    (model_result : Option IntentSuggestion) : IntentSuggestion :=
  let heuristic := heuristic_intent default_field_library prompt max_pages
  let model_suggestion :=
    match model_result with
    | none => none
    | some s =>
      some { s with notes := s.notes ++ ["Intent derived from language model analysis."] }
  let intent := heuristic.merge model_suggestion
  match max_pages with
  | some m => { intent with max_pages := some m }
  | none => intent

/-- `PromptPlanner.plan` (`planner.py` lines 95-126) for the default
planner configuration, with the external intent model abstracted as its
result `model_result`.  `ValueError` becomes `Except.error` carrying the
message. -/
def PromptPlanner.plan (prompt : String) (max_pages : Option Int)
    (model_result : Option IntentSuggestion) : Except String ScrapePlan :=
  if prompt = "" ∨ pyStrip prompt = "" then .error "Prompt cannot be empty."
  else
    let intent := mergedIntent prompt max_pages model_result
    if ¬ truthyOpt intent.seed_url then
      .error "No URL found in the request. Please include at least one URL."
    else
      let seed := intent.seed_url.getD ""
      let fields0 := resolve_fields default_field_library intent.field_names
      let fields :=
        if fields0 = [] then
          default_fields.filterMap (fun n =>
            (lookupLib default_field_library n).map FieldSpec.clone)
        else fields0
      let pagination := infer_pagination seed
      let description :=
        build_description seed fields pagination intent.max_pages intent.interactions
      .ok { seed_url := seed, fields := fields, description := description,
            extra_urls := intent.extra_urls, interactions := intent.interactions,
            pagination := pagination, requested_page_count := intent.max_pages,
            notes := intent.notes }

/-! ## Structural analyzer: fuzzy-scored per-field fallback (`analyzer.py`)

The DOM side of the analyzer is embedded abstractly: an `Elem` carries the
data the extractors read from a BeautifulSoup element (visible text,
`href`, attributes), a `DomNode` carries the traversal orders used by the
extractors (`_iter_elements`, `find_all("a")`, `find_all("img")`) and the
node's own visible text.  `_score_element`, whose value is a
`difflib.SequenceMatcher` ratio, is abstracted as the parameter `score`
(element, compared text) ↦ ratio in `[0, 1]`; the selection loops,
thresholds and comparison directions are translated from the source. -/

/-- The data the extractors read from one DOM element. -/
structure Elem where
  text : String
  href : Option String := none
  attrs : List (String × String) := []
deriving DecidableEq, Repr

/-- Python `element.get(attr, "")` (with `None` collapsing to `""`,
matching the truthiness tests in the source). -/
def Elem.attr (e : Elem) (name : String) : String :=
  match e.attrs.find? (fun p => p.1 = name) with
  | some p => p.2
  | none => ""

/-- The traversal views of one node that the fallback extractors use. -/
structure DomNode where
  elements : List Elem
  anchors : List Elem := []
  images : List Elem := []
  full_text : String := ""
deriving Repr

/-- A score function abstracting `PageAnalyzer._score_element` for a fixed
field: (element, text passed to the scorer) ↦ similarity ratio. -/
abbrev ScoreFn := Elem → String → ℚ

/-- The element loop of `PageAnalyzer._extract_text` (`analyzer.py` lines
156-165): keep the best-scoring element above `0.6`, a strictly greater
score required to replace an existing best. -/
def extractTextLoop (score : ScoreFn) : List Elem → ℚ → Option String → Option String
  | [], _, best_value => best_value
  | e :: rest, best_score, best_value =>
    if e.text = "" then extractTextLoop score rest best_score best_value
    else
      let s := score e e.text
      if s > 0.6 ∧ (s > best_score ∨ best_value = none) then
        extractTextLoop score rest s (some e.text)
      else extractTextLoop score rest best_score best_value

/-- `" ".join(text_content.split()[:30])` (`analyzer.py` line 173). -/
def first30Words (text : String) : String :=
  pyJoin " " ((pySplitWs text).take 30)

/-- `PageAnalyzer._extract_text` (`analyzer.py` lines 155-174). -/
def PageAnalyzer.extract_text (score : ScoreFn) (node : DomNode) (f : FieldSpec) :
    Option String :=
  match extractTextLoop score node.elements 0 none with
  | some v => some v
  | none =>
    if f.allow_truncated ∧ node.full_text ≠ "" then some (first30Words node.full_text)
    else none

/-- Leftmost match of the numeric pattern
`(?:[$€£]\s?)?\d[\d,]*(?:\.\d+)?` starting exactly at the head of the
list. -/
def tryNumericAt (l : List Char) : Option (List Char) :=
  match l with
  | c :: r =>
    if c = '$' ∨ c = '€' ∨ c = '£' then
      match r with
      | c2 :: r2 =>
        if pyIsSpace c2 then
          match numTail r2 with
          | some m => some (c :: c2 :: m)
          | none => none
        else
          match numTail r with
          | some m => some (c :: m)
          | none => none
      | [] => none
    else numTail l
  | [] => none
where
  /-- `\d[\d,]*(?:\.\d+)?` at the head of the list. -/
  numTail (l : List Char) : Option (List Char) :=
    match l with
    | c :: r =>
      if c.isDigit then
        let digits := r.takeWhile (fun x => x.isDigit ∨ x = ',')
        let rest := r.dropWhile (fun x => x.isDigit ∨ x = ',')
        match rest with
        | '.' :: d :: r2 =>
          if d.isDigit then
            some (c :: digits ++ '.' :: d :: r2.takeWhile Char.isDigit)
          else some (c :: digits)
        | _ => some (c :: digits)
      else none
    | [] => none

/-- `_NUMERIC_RE.search(text)` (`analyzer.py` line 15): group 0 of the
leftmost match. -/
def numericSearch : List Char → Option String
  | [] => none
  | c :: r =>
    match tryNumericAt (c :: r) with
    | some m => some ⟨m⟩
    | none => numericSearch r

/-- The element loop of `PageAnalyzer._extract_numeric` (`analyzer.py`
lines 177-189): only elements with a numeric token qualify, threshold
`0.45`, and a greater-or-equal score replaces the current best. -/
def extractNumericLoop (score : ScoreFn) : List Elem → ℚ → Option String → Option String
  | [], _, best_value => best_value
  | e :: rest, best_score, best_value =>
    if e.text = "" then extractNumericLoop score rest best_score best_value
    else
      match numericSearch e.text.data with
      | none => extractNumericLoop score rest best_score best_value
      | some m =>
        let s := score e e.text
        if s > 0.45 ∧ s ≥ best_score then extractNumericLoop score rest s (some m)
        else extractNumericLoop score rest best_score best_value

/-- `PageAnalyzer._extract_numeric` (`analyzer.py` lines 176-196). -/
def PageAnalyzer.extract_numeric (score : ScoreFn) (node : DomNode) : Option String :=
  match extractNumericLoop score node.elements 0 none with
  | some v => some v
  | none => numericSearch node.full_text.data

/-- The anchor loop of `PageAnalyzer._extract_link` (`analyzer.py` lines
217-224): anchors with a truthy `href`, scored on their text, threshold
`0.4`, greater-or-equal replacement. -/
def extractLinkLoop (score : ScoreFn) (base_url : String) :
    List Elem → ℚ → Option String → Option String
  | [], _, best_value => best_value
  | e :: rest, best_score, best_value =>
    match e.href with
    | some href =>
      if href ≠ "" then
        let s := score e e.text
        if s > 0.4 ∧ s ≥ best_score then
          extractLinkLoop score base_url rest s (some (pyUrljoin base_url href))
        else extractLinkLoop score base_url rest best_score best_value
      else extractLinkLoop score base_url rest best_score best_value
    | none => extractLinkLoop score base_url rest best_score best_value

/-- `PageAnalyzer._extract_link` (`analyzer.py` lines 214-225). -/
def PageAnalyzer.extract_link (score : ScoreFn) (node : DomNode) (base_url : String) :
    Option String :=
  extractLinkLoop score base_url node.anchors 0 none

/-- The attribute loop inside `PageAnalyzer._extract_image` (`analyzer.py`
lines 231-239) for one element: each truthy candidate attribute is scored
(on the element's `alt` text) and compared with greater-or-equal. -/
def imageAttrLoop (score : ScoreFn) (base_url : String) (e : Elem) :
    List String → ℚ → Option String → ℚ × Option String
  | [], best_score, best_value => (best_score, best_value)
  | attr :: rest, best_score, best_value =>
    let v := e.attr attr
    if v ≠ "" then
      let s := score e (e.attr "alt")
      if s > 0.3 ∧ s ≥ best_score then
        imageAttrLoop score base_url e rest s (some (pyUrljoin base_url v))
      else imageAttrLoop score base_url e rest best_score best_value
    else imageAttrLoop score base_url e rest best_score best_value

/-- The element loop of `PageAnalyzer._extract_image` (`analyzer.py` lines
230-239). -/
def extractImageLoop (score : ScoreFn) (base_url : String) (attrs : List String) :
    List Elem → ℚ → Option String → Option String
  | [], _, best_value => best_value
  | e :: rest, best_score, best_value =>
    let (bs, bv) := imageAttrLoop score base_url e attrs best_score best_value
    extractImageLoop score base_url attrs rest bs bv

/-- `PageAnalyzer._extract_image` (`analyzer.py` lines 227-240). -/
def PageAnalyzer.extract_image (score : ScoreFn) (node : DomNode) (f : FieldSpec)
    (base_url : String) : Option String :=
  let candidate_attrs :=
    if f.attribute_preferences ≠ [] then f.attribute_preferences
    else ["src", "data-src", "data-original"]
  extractImageLoop score base_url candidate_attrs node.images 0 none

/-- No two adjacent whitespace characters. -/
def noAdjSp : List Char → Bool
  | [] => true
  | [_] => true
  | a :: b :: r => (!(pyIsSpace a && pyIsSpace b)) && noAdjSp (b :: r)

/-- The qualifying test of the link loop: a truthy `href`. -/
def hasHref (e : Elem) : Bool :=
  match e.href with
  | some h => h ≠ ""
  | none => false

/-- The value the image attribute loop ends up keeping for one element:
the last truthy candidate attribute. -/
def lastTruthyAttr (e : Elem) : List String → Option String
  | [] => none
  | a :: rest =>
    match lastTruthyAttr e rest with
    | some v => some v
    | none => if e.attr a ≠ "" then some (e.attr a) else none

/-! ## Helper lemmas -/

theorem pyDedup_ne_nil {l : List String} (h : l ≠ []) : pyDedup l ≠ [] := by
  match l with
  | [] => exact absurd rfl h
  | x :: xs => simp [pyDedup, pyDedupAux]

theorem fetchSingle_url (reply : String → HttpReply) (u : String) :
    (fetchSingle reply u).url = u := by
  unfold fetchSingle
  cases reply u <;> rfl

/-! ## C4: HTTP fallback fetch (`fetch_all` without browser automation) -/

/-- C4 (amended): when browser automation is unavailable and the input URL
list is non-empty, `fetch_all` returns exactly one `PageContent` per unique
input URL, positionally aligned with the first-seen-order deduplication of
the input, with metadata `transport = "http"` and a warning noting the
fallback.  (For the empty input list the source returns no warning and
metadata `transport = "browser"`.) -/
theorem fetch_all_http_fallback (reply : String → HttpReply) (urls : List String)
    (h : urls ≠ []) :
    (BrowserCollector.fetchAllUnavailable reply urls).1 =
      (pyDedup urls).map (fetchSingle reply) ∧
    ((BrowserCollector.fetchAllUnavailable reply urls).1.map PageContent.url =
      pyDedup urls) ∧
    (BrowserCollector.fetchAllUnavailable reply urls).2.1 =
      ["Playwright is unavailable; falling back to HTTP fetching."] ∧
    (BrowserCollector.fetchAllUnavailable reply urls).2.2 = [("transport", "http")] := by
  have hd : pyDedup urls ≠ [] := pyDedup_ne_nil h
  have hmain : BrowserCollector.fetchAllUnavailable reply urls =
      ((pyDedup urls).map (fetchSingle reply),
       ["Playwright is unavailable; falling back to HTTP fetching."],
       [("transport", "http")]) := by
    unfold BrowserCollector.fetchAllUnavailable HttpFallbackFetcher.fetch_all
    simp [hd]
  have hurl : ((pyDedup urls).map (fetchSingle reply)).map PageContent.url =
      pyDedup urls := by
    simp only [List.map_map]
    have hc : PageContent.url ∘ fetchSingle reply = id := by
      funext u
      simp [Function.comp, fetchSingle_url]
    simp [hc]
  exact ⟨by rw [hmain], by rw [hmain]; exact hurl, by rw [hmain], by rw [hmain]⟩

/-- C4 witness: a concrete two-URL batch (with a repeat) through the HTTP
fallback. -/
theorem fetch_all_http_fallback_witness :
    ["https://a.com", "https://b.com", "https://a.com"] ≠ ([] : List String) ∧
    (BrowserCollector.fetchAllUnavailable (fun u => .success u 200 "<p>x</p>")
        ["https://a.com", "https://b.com", "https://a.com"]).1.map PageContent.url =
      ["https://a.com", "https://b.com"] := by
  refine ⟨by decide, ?_⟩
  have h := fetch_all_http_fallback (fun u => .success u 200 "<p>x</p>")
    ["https://a.com", "https://b.com", "https://a.com"] (by decide)
  exact h.2.1.trans (by decide)

/-- C4 counterexample: on the empty URL list the unavailable-browser path
returns metadata `transport = "browser"` and no warning, so the claim's
"for every list of input URLs ... transport = http and a warning" fails. -/
theorem fetch_all_http_fallback_empty_counterexample :
    (BrowserCollector.fetchAllUnavailable (fun u => .success u 200 "x") []).2.2 =
      [("transport", "browser")] ∧
    (BrowserCollector.fetchAllUnavailable (fun u => .success u 200 "x") []).2.1 = [] := by
  decide

/-! ## C5: failed pages never reach the analyzer -/

/-- C5 (amended): in the engine's page loop, a page whose fetch failed
(`success` false, where success holds exactly when the error field is
absent **or the empty string** and the html is non-empty) contributes
`"<url>: <error>"` to the errors and nothing to the items, while items
come exactly from the successful pages and successful pages are never
added to the errors. -/
theorem failed_pages_skipped (extract : String → String → List Record × List String)
    (pages : List PageContent) :
    (processPages extract pages).2.1 =
      (pages.filter (fun p => ¬ p.success)).map errorEntry ∧
    (processPages extract pages).1 =
      (pages.filter (fun p => p.success)).flatMap (fun p => (extract p.html (pageUrl p)).1) ∧
    (∀ p : PageContent,
      p.success = true ↔ ((p.error = none ∨ p.error = some "") ∧ p.html ≠ "")) := by
  refine ⟨?_, ?_, ?_⟩
  · induction pages with
    | nil => rfl
    | cons p rest ih =>
      by_cases hs : p.success
      · simp [processPages, hs, ih]
      · simp [processPages, hs, ih]
  · induction pages with
    | nil => rfl
    | cons p rest ih =>
      by_cases hs : p.success
      · simp [processPages, hs, ih]
      · simp [processPages, hs, ih]
  · intro p
    unfold PageContent.success
    cases h : p.error with
    | none => simp
    | some e =>
      by_cases he : e = "" <;> simp [he]

/-- C5 counterexample: a page with `error = some ""` and non-empty html
counts as successful (so "success ⇔ error absent ∧ html non-empty" is
false), is passed to the analyzer, and is not recorded in the errors. -/
theorem success_empty_error_counterexample :
    ({ url := "https://a.com", final_url := "https://a.com", status_code := some 200,
       html := "<p>x</p>", error := some "" : PageContent }).success = true ∧
    ({ url := "https://a.com", final_url := "https://a.com", status_code := some 200,
       html := "<p>x</p>", error := some "" : PageContent }).error ≠ none ∧
    (processPages (fun _ _ => ([[("title", "t")]], []))
      [{ url := "https://a.com", final_url := "https://a.com", status_code := some 200,
         html := "<p>x</p>", error := some "" }]).1 = [[("title", "t")]] ∧
    (processPages (fun _ _ => ([[("title", "t")]], []))
      [{ url := "https://a.com", final_url := "https://a.com", status_code := some 200,
         html := "<p>x</p>", error := some "" }]).2.1 = [] := by
  refine ⟨by decide, by decide, ?_, ?_⟩ <;> rfl

/-! ## C8: field coverage ratios -/

theorem round3_one : round3 1 = 1 := by
  norm_num [round3, roundHalfEven]

theorem round3_zero : round3 0 = 0 := by
  norm_num [round3, roundHalfEven]

/-- C8: the serialized per-field coverage is `round(hits/total, 3)`; a
field with a non-empty value in every record has coverage exactly `1.0`, a
field with one in no record exactly `0.0`, and with zero items every
planned field has coverage `0.0`. -/
theorem field_coverage_bounds (items : List Record) (fields : List FieldSpec) :
    (∀ f ∈ fields, items ≠ [] → (∀ it ∈ items, recTruthy it f.name = true) →
      (f.name, (1 : ℚ)) ∈ ScrapeOutcome.field_coverage items fields) ∧
    (∀ f ∈ fields, (∀ it ∈ items, recTruthy it f.name = false) →
      (f.name, (0 : ℚ)) ∈ ScrapeOutcome.field_coverage items fields) ∧
    (items = [] → ∀ f ∈ fields,
      (f.name, (0 : ℚ)) ∈ ScrapeOutcome.field_coverage items fields) := by
  refine ⟨?_, ?_, ?_⟩
  · intro f hf hne hall
    have hlen : items.length ≠ 0 := by
      simpa [List.length_eq_zero] using hne
    have hfilter : items.filter (fun it => recTruthy it f.name) = items :=
      List.filter_eq_self.mpr hall
    unfold ScrapeOutcome.field_coverage
    rw [if_pos hlen]
    refine List.mem_map.mpr ⟨f, hf, ?_⟩
    rw [hfilter]
    have hc : (items.length : ℚ) ≠ 0 := Nat.cast_ne_zero.mpr hlen
    rw [div_self hc, round3_one]
  · intro f hf hall
    by_cases hne : items.length ≠ 0
    · have hfilter : items.filter (fun it => recTruthy it f.name) = [] := by
        rw [List.filter_eq_nil_iff]
        intro a ha
        simp [hall a ha]
      unfold ScrapeOutcome.field_coverage
      rw [if_pos hne]
      refine List.mem_map.mpr ⟨f, hf, ?_⟩
      rw [hfilter]
      norm_num [round3_zero]
    · unfold ScrapeOutcome.field_coverage
      rw [if_neg hne]
      exact List.mem_map.mpr ⟨f, hf, rfl⟩
  · intro h f hf
    subst h
    unfold ScrapeOutcome.field_coverage
    exact List.mem_map.mpr ⟨f, hf, rfl⟩

/-- C8 witness: full coverage on one concrete record list. -/
theorem field_coverage_bounds_witness :
    ([[("title", "x")], [("title", "y")]] : List Record) ≠ [] ∧
    ("title", (1 : ℚ)) ∈ ScrapeOutcome.field_coverage
      [[("title", "x")], [("title", "y")]]
      [{ name := "title", synonyms := ["title"] }] := by
  refine ⟨by decide, ?_⟩
  exact (field_coverage_bounds [[("title", "x")], [("title", "y")]]
      [{ name := "title", synonyms := ["title"] }]).1
    { name := "title", synonyms := ["title"] } (by decide) (by decide) (by decide)

/-! ## C9: refine stats reporting -/

/-- C9 (amended): for non-empty input, the stats map returned by `refine`
carries the records-before count, records-after count, duplicates-removed
count and the per-field population map; for empty input, `refine` returns
empty output, the three zeroed counters (without a population map), and
no warnings. -/
theorem refine_stats_reporting (items : List Record) (plan : ScrapePlan) :
    (items ≠ [] →
      lookupStat "records_before_cleaning" (DataRefiner.refine items plan).2.1 =
        some (.num items.length) ∧
      lookupStat "records_after_cleaning" (DataRefiner.refine items plan).2.1 =
        some (.num (DataRefiner.refine items plan).1.length) ∧
      lookupStat "duplicates_removed" (DataRefiner.refine items plan).2.1 =
        some (.num (refineLoop plan.fields [] items).2) ∧
      lookupStat "field_population" (DataRefiner.refine items plan).2.1 =
        some (.popMap
          (DataRefiner.fieldPopulation (DataRefiner.refine items plan).1 plan.fields))) ∧
    DataRefiner.refine [] plan =
      ([], [("records_before_cleaning", .num 0), ("records_after_cleaning", .num 0),
            ("duplicates_removed", .num 0)], []) := by
  constructor
  · intro h
    unfold DataRefiner.refine
    simp only [h, if_false]
    refine ⟨?_, ?_, ?_, ?_⟩ <;> simp +decide [lookupStat, List.find?]
  · rfl

/-- C9 witness: stats on a concrete one-record input. -/
theorem refine_stats_reporting_witness :
    ([[("title", "x")]] : List Record) ≠ [] ∧
    lookupStat "field_population"
      (DataRefiner.refine [[("title", "x")]]
        { seed_url := "https://a.com", fields := [{ name := "title", synonyms := ["title"] }],
          description := "" }).2.1 =
      some (.popMap [("title", 1)]) := by
  refine ⟨by decide, ?_⟩
  have h := (refine_stats_reporting [[("title", "x")]]
    { seed_url := "https://a.com", fields := [{ name := "title", synonyms := ["title"] }],
      description := "" }).1 (by decide)
  exact h.2.2.2.trans (by decide)

/-- C9 counterexample: for the empty input the stats map has no
`field_population` key, so "for every input the stats map contains ... the
per-field population map" fails. -/
theorem refine_empty_population_counterexample :
    lookupStat "field_population"
      (DataRefiner.refine []
        { seed_url := "https://a.com", fields := [{ name := "title", synonyms := ["title"] }],
          description := "" }).2.1 = none := by
  decide

/-! ## Whitespace-normalization lemmas (towards C6) -/

theorem noAdjSp_tail {a : Char} {l : List Char} (h : noAdjSp (a :: l) = true) :
    noAdjSp l = true := by
  match l with
  | [] => rfl
  | b :: r =>
    simp only [noAdjSp, Bool.and_eq_true] at h
    exact h.2

theorem collapseWs_cons (c : Char) (r : List Char) :
    ∃ t, collapseWs (c :: r) = (if pyIsSpace c then ' ' else c) :: t := by
  induction r generalizing c with
  | nil =>
    refine ⟨[], ?_⟩
    show (if pyIsSpace c then [' '] else [c]) = _
    by_cases h : pyIsSpace c = true <;> simp [h]
  | cons c2 r2 ih =>
    by_cases h : pyIsSpace c = true ∧ pyIsSpace c2 = true
    · obtain ⟨t, ht⟩ := ih c2
      refine ⟨t, ?_⟩
      rw [collapseWs, if_pos h, ht, if_pos h.2, if_pos h.1]
    · exact ⟨collapseWs (c2 :: r2), by rw [collapseWs, if_neg h]⟩

theorem wsFlat_collapseWs :
    ∀ l, ∀ c ∈ collapseWs l, pyIsSpace c = true → c = ' ' := by
  intro l
  induction l using collapseWs.induct with
  | case1 => intro c hc; simp [collapseWs] at hc
  | case2 c hsp =>
    intro d hd _
    simp [collapseWs, hsp] at hd
    exact hd
  | case3 c hsp =>
    intro d hd hdsp
    simp [collapseWs, hsp] at hd
    subst hd
    exact absurd hdsp hsp
  | case4 c1 c2 r hb ih =>
    intro d hd hsp
    rw [collapseWs, if_pos hb] at hd
    exact ih d hd hsp
  | case5 c1 c2 r hb ih =>
    intro d hd hsp
    rw [collapseWs, if_neg hb] at hd
    rcases List.mem_cons.mp hd with h | h
    · subst h
      by_cases h1 : pyIsSpace c1 = true
      · simp [h1]
      · simp only [h1, if_false] at hsp ⊢
        exact absurd hsp h1
    · exact ih d h hsp

theorem noAdjSp_collapseWs : ∀ l, noAdjSp (collapseWs l) = true := by
  intro l
  induction l using collapseWs.induct with
  | case1 => rfl
  | case2 c hsp => simp [collapseWs, hsp, noAdjSp]
  | case3 c hsp => simp [collapseWs, hsp, noAdjSp]
  | case4 c1 c2 r hb ih => rw [collapseWs, if_pos hb]; exact ih
  | case5 c1 c2 r hb ih =>
    rw [collapseWs, if_neg hb]
    obtain ⟨t, ht⟩ := collapseWs_cons c2 r
    rw [ht]
    rw [ht] at ih
    simp only [noAdjSp, Bool.and_eq_true]
    refine ⟨?_, ih⟩
    by_cases h1 : pyIsSpace c1 = true
    · have h2 : ¬ pyIsSpace c2 = true := fun hc => hb ⟨h1, hc⟩
      simp [h1, h2]
    · simp [h1]

theorem collapseWs_fix :
    ∀ l, (∀ c ∈ l, pyIsSpace c = true → c = ' ') → noAdjSp l = true →
      collapseWs l = l := by
  intro l
  induction l using collapseWs.induct with
  | case1 => intro _ _; rfl
  | case2 c hsp =>
    intro hflat _
    have := hflat c (by simp) hsp
    simp [collapseWs, hsp, this]
  | case3 c hsp =>
    intro _ _
    simp [collapseWs, hsp]
  | case4 c1 c2 r hb ih =>
    intro _ hadj
    exfalso
    simp only [noAdjSp, Bool.and_eq_true, Bool.not_eq_true', Bool.and_eq_false_iff] at hadj
    rcases hadj.1 with h | h
    · exact absurd hb.1 (by simp [h])
    · exact absurd hb.2 (by simp [h])
  | case5 c1 c2 r hb ih =>
    intro hflat hadj
    rw [collapseWs, if_neg hb]
    have htail : collapseWs (c2 :: r) = c2 :: r :=
      ih (fun c hc => hflat c (List.mem_cons_of_mem _ hc)) (noAdjSp_tail hadj)
    rw [htail]
    by_cases h1 : pyIsSpace c1 = true
    · rw [if_pos h1, hflat c1 (by simp) h1]
    · rw [if_neg h1]

theorem mem_dropWhile {p : Char → Bool} {l : List Char} {a : Char}
    (h : a ∈ l.dropWhile p) : a ∈ l := by
  induction l with
  | nil => simp at h
  | cons c r ih =>
    rw [List.dropWhile_cons] at h
    by_cases hc : p c = true
    · simp only [hc, if_true] at h
      exact List.mem_cons_of_mem _ (ih h)
    · simp only [hc, if_false] at h
      exact h

theorem dropWhile_head_not {p : Char → Bool} :
    ∀ {l : List Char} {c : Char} {t : List Char},
      l.dropWhile p = c :: t → p c = false := by
  intro l
  induction l with
  | nil => intro c t h; simp at h
  | cons a r ih =>
    intro c t h
    rw [List.dropWhile_cons] at h
    by_cases ha : p a = true
    · simp only [ha, if_true] at h
      exact ih h
    · rw [if_neg (by simp [ha])] at h
      injection h with h1 _
      subst h1
      simpa using ha

theorem dropWhile_idem (p : Char → Bool) (l : List Char) :
    (l.dropWhile p).dropWhile p = l.dropWhile p := by
  match h : l.dropWhile p with
  | [] => rfl
  | c :: t =>
    have := dropWhile_head_not (p := p) h
    simp [List.dropWhile_cons, this]

theorem rstripL_eq_append (l : List Char) :
    ∃ t, l = rstripL l ++ t := by
  refine ⟨(l.reverse.takeWhile pyIsSpace).reverse, ?_⟩
  have h := List.takeWhile_append_dropWhile (p := pyIsSpace) (l := l.reverse)
  calc l = l.reverse.reverse := (List.reverse_reverse l).symm
    _ = (l.reverse.takeWhile pyIsSpace ++ l.reverse.dropWhile pyIsSpace).reverse := by
        rw [h]
    _ = rstripL l ++ (l.reverse.takeWhile pyIsSpace).reverse := by
        rw [List.reverse_append]; rfl

theorem noAdjSp_append_left :
    ∀ xs ys : List Char, noAdjSp (xs ++ ys) = true → noAdjSp xs = true := by
  intro xs
  induction xs with
  | nil => intro ys _; rfl
  | cons x xs' ih =>
    intro ys h
    match xs', h with
    | [], _ => rfl
    | x2 :: xs'', h =>
      simp only [List.cons_append, noAdjSp, Bool.and_eq_true] at h ⊢
      exact ⟨h.1, ih ys h.2⟩

theorem noAdjSp_dropWhile (p : Char → Bool) :
    ∀ l : List Char, noAdjSp l = true → noAdjSp (l.dropWhile p) = true := by
  intro l
  induction l with
  | nil => intro _; rfl
  | cons c r ih =>
    intro h
    rw [List.dropWhile_cons]
    by_cases hc : p c = true
    · simp only [hc, if_true]
      exact ih (noAdjSp_tail h)
    · simpa [hc] using h

theorem stripL_mem {l : List Char} {a : Char} (h : a ∈ stripL l) : a ∈ l := by
  unfold stripL at h
  obtain ⟨t, ht⟩ := rstripL_eq_append (lstripL l)
  have : a ∈ lstripL l := by
    rw [ht]; exact List.mem_append_left _ h
  exact mem_dropWhile this

theorem noAdjSp_stripL {l : List Char} (h : noAdjSp l = true) :
    noAdjSp (stripL l) = true := by
  unfold stripL rstripL
  have h1 : noAdjSp (lstripL l) = true := noAdjSp_dropWhile _ _ h
  obtain ⟨t, ht⟩ := rstripL_eq_append (lstripL l)
  rw [ht] at h1
  exact noAdjSp_append_left _ _ h1

theorem stripL_idem (l : List Char) : stripL (stripL l) = stripL l := by
  have hA : lstripL (rstripL (lstripL l)) = rstripL (lstripL l) := by
    match hz : rstripL (lstripL l) with
    | [] => rfl
    | c :: t =>
      obtain ⟨t', ht'⟩ := rstripL_eq_append (lstripL l)
      rw [hz] at ht'
      have hc : pyIsSpace c = false := by
        have : lstripL l = c :: (t ++ t') := by simpa using ht'
        exact dropWhile_head_not (p := pyIsSpace) this
      simp [lstripL, List.dropWhile_cons, hc]
  have hB : rstripL (rstripL (lstripL l)) = rstripL (lstripL l) := by
    unfold rstripL
    rw [List.reverse_reverse, dropWhile_idem]
  show rstripL (lstripL (rstripL (lstripL l))) = rstripL (lstripL l)
  rw [hA, hB]

theorem normalizeValue_idem (v : String) :
    normalizeValue (normalizeValue v) = normalizeValue v := by
  unfold normalizeValue
  have hdata : (String.mk (stripL (collapseWs v.data))).data =
      stripL (collapseWs v.data) := rfl
  rw [hdata]
  have hflat : ∀ c ∈ stripL (collapseWs v.data), pyIsSpace c = true → c = ' ' :=
    fun c hc => wsFlat_collapseWs v.data c (stripL_mem hc)
  have hadj : noAdjSp (stripL (collapseWs v.data)) = true :=
    noAdjSp_stripL (noAdjSp_collapseWs v.data)
  rw [collapseWs_fix _ hflat hadj, stripL_idem]

/-! ## Refiner loop lemmas (towards C6 and C7) -/

theorem normalizeRecord_idem (r : Record) :
    normalizeRecord (normalizeRecord r) = normalizeRecord r := by
  unfold normalizeRecord
  rw [List.map_map]
  apply List.map_congr_left
  intro p _
  simp [Function.comp, normalizeValue_idem]

theorem recGet_normalizeRecord (r : Record) (k : String) :
    recGet (normalizeRecord r) k = normalizeValue (recGet r k) := by
  induction r with
  | nil => rfl
  | cons p rest ih =>
    by_cases hk : p.1 = k
    · simp [recGet, normalizeRecord, List.find?, hk]
    · have hd : decide (p.1 = k) = false := decide_eq_false hk
      simp only [recGet, normalizeRecord, List.map_cons, List.find?, hd] at ih ⊢
      exact ih

theorem refineLoop_norm_fix (fields : List FieldSpec) :
    ∀ (items : List Record) (seen : List (List String)),
      ∀ r ∈ (refineLoop fields seen items).1, normalizeRecord r = r := by
  intro items
  induction items with
  | nil => intro seen r hr; simp [refineLoop] at hr
  | cons item rest ih =>
    intro seen r hr
    rw [refineLoop] at hr
    by_cases hc : seen.contains (DataRefiner.signature (normalizeRecord item) fields)
    · rw [if_pos hc] at hr
      exact ih seen r hr
    · rw [if_neg hc] at hr
      rcases List.mem_cons.mp hr with h | h
      · subst h; exact normalizeRecord_idem item
      · exact ih _ r h

theorem refineLoop_sig_invariant (fields : List FieldSpec) :
    ∀ (items : List Record) (seen : List (List String)),
      ((refineLoop fields seen items).1.map
        (fun r => DataRefiner.signature r fields)).Nodup ∧
      ∀ s ∈ (refineLoop fields seen items).1.map
        (fun r => DataRefiner.signature r fields), s ∉ seen := by
  intro items
  induction items with
  | nil => intro seen; simp [refineLoop]
  | cons item rest ih =>
    intro seen
    rw [refineLoop]
    by_cases hc : seen.contains (DataRefiner.signature (normalizeRecord item) fields)
    · rw [if_pos hc]
      exact ih seen
    · rw [if_neg hc]
      obtain ⟨hnd, hdisj⟩ :=
        ih (DataRefiner.signature (normalizeRecord item) fields :: seen)
      constructor
      · simp only [List.map_cons, List.nodup_cons]
        exact ⟨fun hmem => (hdisj _ hmem) (List.mem_cons_self _ _), hnd⟩
      · intro s hs
        simp only [List.map_cons, List.mem_cons] at hs
        rcases hs with h | h
        · subst h
          intro hmem
          exact hc (List.elem_iff.mpr hmem)
        · intro hmem
          exact (hdisj s h) (List.mem_cons_of_mem _ hmem)

theorem refineLoop_fixpoint (fields : List FieldSpec) :
    ∀ (l : List Record) (seen : List (List String)),
      (∀ r ∈ l, normalizeRecord r = r) →
      ((l.map (fun r => DataRefiner.signature r fields)).Nodup) →
      (∀ s ∈ l.map (fun r => DataRefiner.signature r fields), s ∉ seen) →
      refineLoop fields seen l = (l, 0) := by
  intro l
  induction l with
  | nil => intro seen _ _ _; rfl
  | cons r rest ih =>
    intro seen hnorm hnd hdisj
    have hr : normalizeRecord r = r := hnorm r (List.mem_cons_self _ _)
    have hsig : DataRefiner.signature (normalizeRecord r) fields =
        DataRefiner.signature r fields := by rw [hr]
    have hnotin : DataRefiner.signature r fields ∉ seen :=
      hdisj _ (by simp)
    rw [List.map_cons] at hnd
    obtain ⟨hhead, htail⟩ := List.nodup_cons.mp hnd
    rw [refineLoop, hsig, if_neg (fun hcon => hnotin (List.elem_iff.mp hcon))]
    have hrest : refineLoop fields (DataRefiner.signature r fields :: seen) rest =
        (rest, 0) := by
      apply ih
      · exact fun x hx => hnorm x (List.mem_cons_of_mem _ hx)
      · exact htail
      · intro s hs
        rw [List.mem_cons, not_or]
        refine ⟨?_, hdisj s (List.mem_cons_of_mem _ hs)⟩
        intro heq
        rw [heq] at hs
        exact hhead hs
    rw [hrest, hr]

theorem refineLoop_ne_nil (fields : List FieldSpec) (item : Record)
    (rest : List Record) : (refineLoop fields [] (item :: rest)).1 ≠ [] := by
  rw [refineLoop]
  simp

/-! ## C6: deduplication is idempotent -/

/-- C6: refining the cleaned records `refine` already produced returns the
same record list unchanged and reports zero duplicates removed. -/
theorem refine_dedup_idempotent (items : List Record) (plan : ScrapePlan) :
    (DataRefiner.refine (DataRefiner.refine items plan).1 plan).1 =
      (DataRefiner.refine items plan).1 ∧
    lookupStat "duplicates_removed"
      (DataRefiner.refine (DataRefiner.refine items plan).1 plan).2.1 =
      some (.num 0) := by
  by_cases hitems : items = []
  · subst hitems
    exact ⟨rfl, rfl⟩
  · have hC : (DataRefiner.refine items plan).1 = (refineLoop plan.fields [] items).1 := by
      unfold DataRefiner.refine
      rw [if_neg hitems]
    match hcl : items, hitems with
    | item :: rest, _ =>
    have hCne : (DataRefiner.refine (item :: rest) plan).1 ≠ [] := by
      rw [hC]
      exact refineLoop_ne_nil plan.fields item rest
    have hfix : refineLoop plan.fields [] ((DataRefiner.refine (item :: rest) plan).1) =
        ((DataRefiner.refine (item :: rest) plan).1, 0) := by
      apply refineLoop_fixpoint
      · intro r hr
        rw [hC] at hr
        exact refineLoop_norm_fix plan.fields _ [] r hr
      · rw [hC]
        exact (refineLoop_sig_invariant plan.fields _ []).1
      · intro s _ hmem
        simp at hmem
    constructor
    · conv_lhs => rw [DataRefiner.refine, if_neg hCne]
      rw [hfix]
    · conv_lhs => rw [DataRefiner.refine, if_neg hCne]
      rw [hfix]
      simp +decide [lookupStat, List.find?]

/-! ## C7: case/whitespace-insensitive deduplication -/

theorem signature_congr (fields : List FieldSpec) (r1 r2 : Record)
    (hmatch : ∀ f ∈ fields, f.value_type ≠ "image" → f.value_type ≠ "link" →
      pyLower (normalizeValue (recGet r1 f.name)) =
        pyLower (normalizeValue (recGet r2 f.name)))
    (hexists : ∃ f ∈ fields, f.value_type ≠ "image" ∧ f.value_type ≠ "link") :
    DataRefiner.signature (normalizeRecord r1) fields =
      DataRefiner.signature (normalizeRecord r2) fields := by
  obtain ⟨f0, hf0, hv0⟩ := hexists
  have hcomps : ∀ r : Record, (fields.filterMap (fun f =>
      if f.value_type = "image" ∨ f.value_type = "link" then none
      else some (pyLower (recGet (normalizeRecord r) f.name)))) =
      fields.filterMap (fun f =>
        if f.value_type = "image" ∨ f.value_type = "link" then none
        else some (pyLower (normalizeValue (recGet r f.name)))) := by
    intro r
    apply List.filterMap_congr
    intro f _
    by_cases hv : f.value_type = "image" ∨ f.value_type = "link"
    · simp [hv]
    · rw [if_neg hv, if_neg hv, recGet_normalizeRecord]
  have heq : (fields.filterMap (fun f =>
      if f.value_type = "image" ∨ f.value_type = "link" then none
      else some (pyLower (normalizeValue (recGet r1 f.name))))) =
      fields.filterMap (fun f =>
        if f.value_type = "image" ∨ f.value_type = "link" then none
        else some (pyLower (normalizeValue (recGet r2 f.name)))) := by
    apply List.filterMap_congr
    intro f hf
    by_cases hv : f.value_type = "image" ∨ f.value_type = "link"
    · simp [hv]
    · rw [if_neg hv, if_neg hv,
        hmatch f hf (fun h => hv (Or.inl h)) (fun h => hv (Or.inr h))]
  have hne : (fields.filterMap (fun f =>
      if f.value_type = "image" ∨ f.value_type = "link" then none
      else some (pyLower (normalizeValue (recGet r2 f.name))))) ≠ [] := by
    apply List.ne_nil_of_mem (a := pyLower (normalizeValue (recGet r2 f0.name)))
    exact List.mem_filterMap.mpr ⟨f0, hf0,
      by rw [if_neg (fun h => h.elim hv0.1 hv0.2)]⟩
  simp only [DataRefiner.signature]
  rw [hcomps r1, hcomps r2, heq, if_neg hne, if_neg hne]

/-- C7: two records that differ only by case/whitespace in the
non-(link/image)-typed fields of a plan that has at least one such field
collapse to one surviving record (the normalized first) with
`duplicates_removed = 1`. -/
theorem refine_case_whitespace_duplicates (plan : ScrapePlan) (r1 r2 : Record)
    (hexists : ∃ f ∈ plan.fields, f.value_type ≠ "image" ∧ f.value_type ≠ "link")
    (hmatch : ∀ f ∈ plan.fields, f.value_type ≠ "image" → f.value_type ≠ "link" →
      pyLower (normalizeValue (recGet r1 f.name)) =
        pyLower (normalizeValue (recGet r2 f.name))) :
    (DataRefiner.refine [r1, r2] plan).1 = [normalizeRecord r1] ∧
    lookupStat "duplicates_removed" (DataRefiner.refine [r1, r2] plan).2.1 =
      some (.num 1) := by
  have hsig : DataRefiner.signature (normalizeRecord r2) plan.fields =
      DataRefiner.signature (normalizeRecord r1) plan.fields :=
    (signature_congr plan.fields r1 r2 hmatch hexists).symm
  have hloop : refineLoop plan.fields [] [r1, r2] = ([normalizeRecord r1], 1) := by
    rw [refineLoop]
    rw [if_neg (by simp)]
    rw [refineLoop, hsig]
    rw [if_pos (List.elem_iff.mpr (by simp))]
    rfl
  constructor
  · rw [DataRefiner.refine, if_neg (by simp), hloop]
  · rw [DataRefiner.refine, if_neg (by simp), hloop]
    simp +decide [lookupStat, List.find?]

/-- C7 witness: two concrete records differing only by case and internal
whitespace in a text field. -/
theorem refine_case_whitespace_duplicates_witness :
    (DataRefiner.refine [[("title", "Hello  World")], [("title", "hello world")]]
      { seed_url := "https://a.com", fields := [{ name := "title", synonyms := ["title"] }],
        description := "" }).1 = [[("title", "Hello World")]] ∧
    lookupStat "duplicates_removed"
      (DataRefiner.refine [[("title", "Hello  World")], [("title", "hello world")]]
        { seed_url := "https://a.com", fields := [{ name := "title", synonyms := ["title"] }],
          description := "" }).2.1 = some (.num 1) := by
  have h := refine_case_whitespace_duplicates
    { seed_url := "https://a.com", fields := [{ name := "title", synonyms := ["title"] }],
      description := "" }
    [("title", "Hello  World")] [("title", "hello world")]
    (by decide) (by decide)
  exact ⟨h.1.trans (by decide), h.2⟩

/-! ## URL expansion lemmas (towards C2) -/

theorem expandExtrasLoop_append (limit : Int) :
    ∀ (l : List String) (urls : List String),
      ∃ t, expandExtrasLoop limit urls l = urls ++ t := by
  intro l
  induction l with
  | nil => exact fun urls => ⟨[], by simp [expandExtrasLoop]⟩
  | cons u rest ih =>
    intro urls
    rw [expandExtrasLoop]
    by_cases h : (urls.length : Int) ≥ limit
    · exact ⟨[], by simp [h]⟩
    · rw [if_neg h]
      obtain ⟨t, ht⟩ := ih (urls ++ [u])
      exact ⟨[u] ++ t, by rw [ht, List.append_assoc]⟩

theorem expandDedupLoop_append (limit : Int) :
    ∀ (l : List String) (seen ordered : List String),
      ∃ t, expandDedupLoop limit seen ordered l = ordered ++ t := by
  intro l
  induction l with
  | nil => exact fun seen ordered => ⟨[], by simp [expandDedupLoop]⟩
  | cons u rest ih =>
    intro seen ordered
    rw [expandDedupLoop]
    by_cases hc : seen.contains u
    · rw [if_pos hc]
      by_cases h : (ordered.length : Int) ≥ limit
      · exact ⟨[], by simp [h]⟩
      · rw [if_neg h]; exact ih seen ordered
    · rw [if_neg hc]
      by_cases h : (((ordered ++ [u]).length : Int)) ≥ limit
      · exact ⟨[u], by rw [if_pos h]⟩
      · rw [if_neg h]
        obtain ⟨t, ht⟩ := ih (u :: seen) (ordered ++ [u])
        exact ⟨[u] ++ t, by rw [ht, List.append_assoc]⟩

theorem expandDedupLoop_nodup (limit : Int) :
    ∀ (l : List String) (seen ordered : List String),
      ordered.Nodup → (∀ x ∈ ordered, x ∈ seen) →
      (expandDedupLoop limit seen ordered l).Nodup := by
  intro l
  induction l with
  | nil => intro seen ordered hnd _; simpa [expandDedupLoop] using hnd
  | cons u rest ih =>
    intro seen ordered hnd hsub
    rw [expandDedupLoop]
    by_cases hc : seen.contains u
    · rw [if_pos hc]
      by_cases h : (ordered.length : Int) ≥ limit
      · simpa [h] using hnd
      · rw [if_neg h]; exact ih seen ordered hnd hsub
    · rw [if_neg hc]
      have hu : u ∉ ordered := fun hmem => hc (List.elem_iff.mpr (hsub u hmem))
      have hnd' : (ordered ++ [u]).Nodup := by
        rw [List.nodup_append]
        exact ⟨hnd, List.nodup_singleton u, by simpa using hu⟩
      by_cases h : (((ordered ++ [u]).length : Int)) ≥ limit
      · rw [if_pos h]; exact hnd'
      · rw [if_neg h]
        refine ih (u :: seen) (ordered ++ [u]) hnd' ?_
        intro x hx
        rcases List.mem_append.mp hx with hx | hx
        · exact List.mem_cons_of_mem _ (hsub x hx)
        · simp at hx; subst hx; exact List.mem_cons_self _ _

theorem expandDedupLoop_length (limit : Int) :
    ∀ (l : List String) (seen ordered : List String),
      (ordered.length : Int) < limit →
      ((expandDedupLoop limit seen ordered l).length : Int) ≤ limit := by
  intro l
  induction l with
  | nil =>
    intro seen ordered h
    simpa [expandDedupLoop] using le_of_lt h
  | cons u rest ih =>
    intro seen ordered h
    rw [expandDedupLoop]
    by_cases hc : seen.contains u
    · rw [if_pos hc, if_neg (not_le.mpr h)]
      exact ih seen ordered h
    · rw [if_neg hc]
      have hlen : (((ordered ++ [u]).length : Int)) = (ordered.length : Int) + 1 := by
        simp
      by_cases h2 : (((ordered ++ [u]).length : Int)) ≥ limit
      · rw [if_pos h2, hlen]
        omega
      · rw [if_neg h2]
        exact ih (u :: seen) (ordered ++ [u]) (lt_of_not_ge h2)

/-! ## C2: plan expansion into concrete URLs -/

/-- C2: `expand_urls` never returns an empty list, deduplicates preserving
first-seen order (the result has no duplicates), never exceeds the
1-clamped limit, starts from the seed URL when no pagination is
configured, and on the plan with query pagination over
`https://x.com/items?page=1` with limit 3 produces exactly pages 1-3. -/
theorem expand_urls_spec (plan : ScrapePlan) (limit : Int) :
    ScrapePlan.expand_urls plan limit ≠ [] ∧
    (ScrapePlan.expand_urls plan limit).Nodup ∧
    ((ScrapePlan.expand_urls plan limit).length : Int) ≤ max 1 limit ∧
    (plan.pagination = none →
      (ScrapePlan.expand_urls plan limit).head? = some plan.seed_url) ∧
    ScrapePlan.expand_urls
      { seed_url := "https://x.com/items?page=1", fields := [], description := "",
        pagination := some { mode := "query", parameter := some "page",
                             start := 1, step := 1 } } 3 =
      ["https://x.com/items?page=1", "https://x.com/items?page=2",
       "https://x.com/items?page=3"] := by
  have hpos : (0 : Int) < max 1 limit := lt_of_lt_of_le one_pos (le_max_left 1 limit)
  have key : ∀ u : List String,
      (if expandDedupLoop (max 1 limit) [] [] u = [] then [plan.seed_url]
       else expandDedupLoop (max 1 limit) [] [] u) ≠ [] ∧
      (if expandDedupLoop (max 1 limit) [] [] u = [] then [plan.seed_url]
       else expandDedupLoop (max 1 limit) [] [] u).Nodup ∧
      (((if expandDedupLoop (max 1 limit) [] [] u = [] then [plan.seed_url]
        else expandDedupLoop (max 1 limit) [] [] u).length : Int)) ≤ max 1 limit := by
    intro u
    by_cases ho : expandDedupLoop (max 1 limit) [] [] u = []
    · rw [if_pos ho]
      refine ⟨by simp, List.nodup_singleton _, by simp [hpos]⟩
    · rw [if_neg ho]
      refine ⟨ho, expandDedupLoop_nodup _ u [] [] List.nodup_nil (by simp), ?_⟩
      exact expandDedupLoop_length _ u [] [] (by simp [hpos])
  have hshape : ScrapePlan.expand_urls plan limit =
      (if expandDedupLoop (max 1 limit) [] []
          (expandExtrasLoop (max 1 limit)
            (match plan.pagination with
             | some pg => (pg.generate_urls plan.seed_url (max 1 limit)).take (max 1 limit).toNat
             | none => [plan.seed_url])
            plan.extra_urls) = []
       then [plan.seed_url]
       else expandDedupLoop (max 1 limit) [] []
          (expandExtrasLoop (max 1 limit)
            (match plan.pagination with
             | some pg => (pg.generate_urls plan.seed_url (max 1 limit)).take (max 1 limit).toNat
             | none => [plan.seed_url])
            plan.extra_urls)) := rfl
  obtain ⟨k1, k2, k3⟩ := key (expandExtrasLoop (max 1 limit)
    (match plan.pagination with
     | some pg => (pg.generate_urls plan.seed_url (max 1 limit)).take (max 1 limit).toNat
     | none => [plan.seed_url])
    plan.extra_urls)
  refine ⟨by rw [hshape]; exact k1, by rw [hshape]; exact k2, by rw [hshape]; exact k3,
    ?_, by decide⟩
  intro hnone
  obtain ⟨t, ht⟩ := expandExtrasLoop_append (max 1 limit) plan.extra_urls [plan.seed_url]
  have hstart : expandExtrasLoop (max 1 limit)
      (match plan.pagination with
       | some pg => (pg.generate_urls plan.seed_url (max 1 limit)).take (max 1 limit).toNat
       | none => [plan.seed_url]) plan.extra_urls = plan.seed_url :: t := by
    rw [hnone]
    simpa using ht
  have hdedup : ∃ t', expandDedupLoop (max 1 limit) [] [] (plan.seed_url :: t) =
      plan.seed_url :: t' := by
    rw [expandDedupLoop]
    have hc : ([] : List String).contains plan.seed_url = false := rfl
    rw [if_neg (by simp [hc])]
    by_cases h : ((([] ++ [plan.seed_url] : List String).length : Int)) ≥ max 1 limit
    · exact ⟨[], by rw [if_pos h]; rfl⟩
    · rw [if_neg h]
      obtain ⟨t', ht'⟩ := expandDedupLoop_append (max 1 limit) t
        (plan.seed_url :: []) ([] ++ [plan.seed_url])
      exact ⟨t', by simpa using ht'⟩
  obtain ⟨t', ht'⟩ := hdedup
  rw [hshape, hstart, ht']
  rw [if_neg (by simp)]
  rfl

/-- C2 witness: the no-pagination head conjunct at a concrete plan. -/
theorem expand_urls_spec_witness :
    ({ seed_url := "https://s.com", fields := [], description := "" : ScrapePlan}).pagination
      = none ∧
    (ScrapePlan.expand_urls
      { seed_url := "https://s.com", fields := [], description := "" } 2).head? =
      some "https://s.com" := by
  refine ⟨rfl, ?_⟩
  exact (expand_urls_spec { seed_url := "https://s.com", fields := [], description := "" }
    2).2.2.2.1 rfl

/-! ## Analyzer selection-loop lemmas (towards C3) -/

theorem extractTextLoop_keep (score : ScoreFn) {M : ℚ} :
    ∀ (l : List Elem) (v : String),
      (∀ e ∈ l, e.text ≠ "" → score e e.text ≤ M) →
      extractTextLoop score l M (some v) = some v := by
  intro l
  induction l with
  | nil => intro v _; rfl
  | cons e rest ih =>
    intro v h
    rw [extractTextLoop]
    by_cases he : e.text = ""
    · rw [if_pos he]
      exact ih v (fun x hx => h x (List.mem_cons_of_mem _ hx))
    · rw [if_neg he]
      have hle : score e e.text ≤ M := h e (List.mem_cons_self _ _) he
      rw [if_neg (by
        rintro ⟨_, hgt | hnone⟩
        · exact absurd hle (not_le.mpr hgt)
        · exact Option.some_ne_none v hnone)]
      exact ih v (fun x hx => h x (List.mem_cons_of_mem _ hx))

theorem extractTextLoop_first_max (score : ScoreFn) {M : ℚ} (a : Elem)
    (l2 : List Elem) (ha : a.text ≠ "") (haM : score a a.text = M)
    (hM : M > 0.6) (hl2 : ∀ e ∈ l2, e.text ≠ "" → score e e.text ≤ M) :
    ∀ (l1 : List Elem) (bs : ℚ) (bv : Option String),
      bs < M → (∀ e ∈ l1, e.text ≠ "" → score e e.text < M) →
      extractTextLoop score (l1 ++ a :: l2) bs bv = some a.text := by
  intro l1
  induction l1 with
  | nil =>
    intro bs bv hbs _
    rw [List.nil_append, extractTextLoop, if_neg ha,
      if_pos ⟨by rw [haM]; exact hM, Or.inl (by rw [haM]; exact hbs)⟩, haM]
    exact extractTextLoop_keep score l2 a.text hl2
  | cons e l1' ih =>
    intro bs bv hbs hl1
    rw [List.cons_append, extractTextLoop]
    by_cases he : e.text = ""
    · rw [if_pos he]
      exact ih bs bv hbs (fun x hx => hl1 x (List.mem_cons_of_mem _ hx))
    · rw [if_neg he]
      have hlt : score e e.text < M := hl1 e (List.mem_cons_self _ _) he
      by_cases hcond : score e e.text > 0.6 ∧ (score e e.text > bs ∨ bv = none)
      · rw [if_pos hcond]
        exact ih _ _ hlt (fun x hx => hl1 x (List.mem_cons_of_mem _ hx))
      · rw [if_neg hcond]
        exact ih bs bv hbs (fun x hx => hl1 x (List.mem_cons_of_mem _ hx))

theorem extractNumericLoop_keep (score : ScoreFn) {M : ℚ} :
    ∀ (l : List Elem) (v : String),
      (∀ e ∈ l, e.text ≠ "" → (numericSearch e.text.data).isSome →
        score e e.text < M) →
      extractNumericLoop score l M (some v) = some v := by
  intro l
  induction l with
  | nil => intro v _; rfl
  | cons e rest ih =>
    intro v h
    rw [extractNumericLoop]
    by_cases he : e.text = ""
    · rw [if_pos he]
      exact ih v (fun x hx => h x (List.mem_cons_of_mem _ hx))
    · rw [if_neg he]
      match hm : numericSearch e.text.data with
      | none => exact ih v (fun x hx => h x (List.mem_cons_of_mem _ hx))
      | some m =>
        have hlt : score e e.text < M := h e (List.mem_cons_self _ _) he (by rw [hm]; rfl)
        simp only []
        rw [if_neg (by rintro ⟨_, hge⟩; exact absurd hge (not_le.mpr hlt))]
        exact ih v (fun x hx => h x (List.mem_cons_of_mem _ hx))

theorem extractNumericLoop_last_max (score : ScoreFn) {M : ℚ} (b : Elem)
    (l3 : List Elem) (nb : String) (hb : b.text ≠ "")
    (hnb : numericSearch b.text.data = some nb) (hbM : score b b.text = M)
    (hM : M > 0.45)
    (hl3 : ∀ e ∈ l3, e.text ≠ "" → (numericSearch e.text.data).isSome →
      score e e.text < M) :
    ∀ (l1 : List Elem) (bs : ℚ) (bv : Option String),
      bs ≤ M →
      (∀ e ∈ l1, e.text ≠ "" → (numericSearch e.text.data).isSome →
        score e e.text ≤ M) →
      extractNumericLoop score (l1 ++ b :: l3) bs bv = some nb := by
  intro l1
  induction l1 with
  | nil =>
    intro bs bv hbs _
    rw [List.nil_append, extractNumericLoop, if_neg hb]
    rw [show numericSearch b.text.data = some nb from hnb]
    simp only []
    rw [if_pos ⟨by rw [hbM]; exact hM, by rw [hbM]; exact hbs⟩, hbM]
    exact extractNumericLoop_keep score l3 nb hl3
  | cons e l1' ih =>
    intro bs bv hbs hl1
    rw [List.cons_append, extractNumericLoop]
    by_cases he : e.text = ""
    · rw [if_pos he]
      exact ih bs bv hbs (fun x hx => hl1 x (List.mem_cons_of_mem _ hx))
    · rw [if_neg he]
      match hm : numericSearch e.text.data with
      | none => exact ih bs bv hbs (fun x hx => hl1 x (List.mem_cons_of_mem _ hx))
      | some m =>
        have hle : score e e.text ≤ M :=
          hl1 e (List.mem_cons_self _ _) he (by rw [hm]; rfl)
        simp only []
        by_cases hcond : score e e.text > 0.45 ∧ score e e.text ≥ bs
        · rw [if_pos hcond]
          exact ih _ _ hle (fun x hx => hl1 x (List.mem_cons_of_mem _ hx))
        · rw [if_neg hcond]
          exact ih bs bv hbs (fun x hx => hl1 x (List.mem_cons_of_mem _ hx))

theorem extractLinkLoop_keep (score : ScoreFn) (base : String) {M : ℚ} :
    ∀ (l : List Elem) (v : String),
      (∀ e ∈ l, hasHref e = true → score e e.text < M) →
      extractLinkLoop score base l M (some v) = some v := by
  intro l
  induction l with
  | nil => intro v _; rfl
  | cons e rest ih =>
    intro v h
    rw [extractLinkLoop]
    match hh : e.href with
    | none => exact ih v (fun x hx => h x (List.mem_cons_of_mem _ hx))
    | some href =>
      simp only []
      by_cases htr : href = ""
      · rw [if_neg (by simp [htr])]
        exact ih v (fun x hx => h x (List.mem_cons_of_mem _ hx))
      · rw [if_pos htr]
        have hlt : score e e.text < M :=
          h e (List.mem_cons_self _ _) (by simp [hasHref, hh, htr])
        rw [if_neg (by rintro ⟨_, hge⟩; exact absurd hge (not_le.mpr hlt))]
        exact ih v (fun x hx => h x (List.mem_cons_of_mem _ hx))

theorem extractLinkLoop_last_max (score : ScoreFn) (base : String) {M : ℚ}
    (b : Elem) (l3 : List Elem) (hb_href : b.href ≠ none)
    (hb_ne : b.href.getD "" ≠ "") (hbM : score b b.text = M) (hM : M > 0.4)
    (hl3 : ∀ e ∈ l3, hasHref e = true → score e e.text < M) :
    ∀ (l1 : List Elem) (bs : ℚ) (bv : Option String),
      bs ≤ M → (∀ e ∈ l1, hasHref e = true → score e e.text ≤ M) →
      extractLinkLoop score base (l1 ++ b :: l3) bs bv =
        some (pyUrljoin base (b.href.getD "")) := by
  intro l1
  induction l1 with
  | nil =>
    intro bs bv hbs _
    rw [List.nil_append, extractLinkLoop]
    match hh : b.href with
    | none => exact absurd hh hb_href
    | some href =>
      rw [hh] at hb_ne
      simp only [Option.getD] at hb_ne ⊢
      rw [if_pos hb_ne, if_pos ⟨by rw [hbM]; exact hM, by rw [hbM]; exact hbs⟩, hbM]
      exact extractLinkLoop_keep score base l3 _ hl3
  | cons e l1' ih =>
    intro bs bv hbs hl1
    rw [List.cons_append, extractLinkLoop]
    match hh : e.href with
    | none => exact ih bs bv hbs (fun x hx => hl1 x (List.mem_cons_of_mem _ hx))
    | some href =>
      simp only []
      by_cases htr : href = ""
      · rw [if_neg (by simp [htr])]
        exact ih bs bv hbs (fun x hx => hl1 x (List.mem_cons_of_mem _ hx))
      · rw [if_pos htr]
        have hle : score e e.text ≤ M :=
          hl1 e (List.mem_cons_self _ _) (by simp [hasHref, hh, htr])
        by_cases hcond : score e e.text > 0.4 ∧ score e e.text ≥ bs
        · rw [if_pos hcond]
          exact ih _ _ hle (fun x hx => hl1 x (List.mem_cons_of_mem _ hx))
        · rw [if_neg hcond]
          exact ih bs bv hbs (fun x hx => hl1 x (List.mem_cons_of_mem _ hx))

theorem imageAttrLoop_none (score : ScoreFn) (base : String) (e : Elem) :
    ∀ (attrs : List String) (bs : ℚ) (bv : Option String),
      lastTruthyAttr e attrs = none →
      imageAttrLoop score base e attrs bs bv = (bs, bv) := by
  intro attrs
  induction attrs with
  | nil => intro bs bv _; rfl
  | cons a rest ih =>
    intro bs bv h
    rw [lastTruthyAttr] at h
    match hrest : lastTruthyAttr e rest with
    | some v => rw [hrest] at h; exact absurd h (by simp)
    | none =>
      rw [hrest] at h
      simp only [] at h
      by_cases hv : e.attr a ≠ ""
      · rw [if_pos hv] at h; exact absurd h (by simp)
      · rw [imageAttrLoop, if_neg hv]
        exact ih bs bv hrest

theorem imageAttrLoop_skip (score : ScoreFn) (base : String) (e : Elem) {bs : ℚ}
    (hlt : score e (e.attr "alt") < bs) :
    ∀ (attrs : List String) (bv : Option String),
      imageAttrLoop score base e attrs bs bv = (bs, bv) := by
  intro attrs
  induction attrs with
  | nil => intro bv; rfl
  | cons a rest ih =>
    intro bv
    rw [imageAttrLoop]
    by_cases hv : e.attr a ≠ ""
    · rw [if_pos hv, if_neg (by rintro ⟨_, hge⟩; exact absurd hge (not_le.mpr hlt))]
      exact ih bv
    · rw [if_neg hv]
      exact ih bv

theorem imageAttrLoop_last (score : ScoreFn) (base : String) (e : Elem) {M : ℚ}
    (hscore : score e (e.attr "alt") = M) (hM : M > 0.3) :
    ∀ (attrs : List String) (bs : ℚ) (bv : Option String), bs ≤ M →
      (∀ v, lastTruthyAttr e attrs = some v →
        imageAttrLoop score base e attrs bs bv = (M, some (pyUrljoin base v))) ∧
      (lastTruthyAttr e attrs = none →
        imageAttrLoop score base e attrs bs bv = (bs, bv)) := by
  intro attrs
  induction attrs with
  | nil =>
    intro bs bv _
    exact ⟨fun v hv => absurd hv (by simp [lastTruthyAttr]), fun _ => rfl⟩
  | cons a rest ih =>
    intro bs bv hbs
    refine ⟨?_, imageAttrLoop_none score base e (a :: rest) bs bv⟩
    intro v hv
    rw [lastTruthyAttr] at hv
    by_cases hva : e.attr a ≠ ""
    · rw [imageAttrLoop, if_pos hva, hscore, if_pos ⟨hM, hbs⟩]
      match hrest : lastTruthyAttr e rest with
      | some v' =>
        rw [hrest] at hv
        simp only [Option.some.injEq] at hv
        subst hv
        exact (ih M (some (pyUrljoin base (e.attr a))) (le_refl M)).1 v' hrest
      | none =>
        rw [hrest] at hv
        simp only [if_pos hva, Option.some.injEq] at hv
        subst hv
        rw [(ih M (some (pyUrljoin base (e.attr a))) (le_refl M)).2 hrest]
    · rw [imageAttrLoop, if_neg hva]
      match hrest : lastTruthyAttr e rest with
      | some v' =>
        rw [hrest] at hv
        simp only [Option.some.injEq] at hv
        subst hv
        exact (ih bs bv hbs).1 v' hrest
      | none =>
        rw [hrest] at hv
        simp only [if_neg hva] at hv
        exact absurd hv (by simp)

theorem imageAttrLoop_bound (score : ScoreFn) (base : String) (e : Elem) {M : ℚ}
    (hle : score e (e.attr "alt") ≤ M) :
    ∀ (attrs : List String) (bs : ℚ) (bv : Option String), bs ≤ M →
      (imageAttrLoop score base e attrs bs bv).1 ≤ M := by
  intro attrs
  induction attrs with
  | nil => intro bs bv hbs; exact hbs
  | cons a rest ih =>
    intro bs bv hbs
    rw [imageAttrLoop]
    by_cases hv : e.attr a ≠ ""
    · rw [if_pos hv]
      by_cases hcond : score e (e.attr "alt") > 0.3 ∧ score e (e.attr "alt") ≥ bs
      · rw [if_pos hcond]
        exact ih _ _ hle
      · rw [if_neg hcond]
        exact ih _ _ hbs
    · rw [if_neg hv]
      exact ih _ _ hbs

theorem extractImageLoop_keep (score : ScoreFn) (base : String)
    (attrs : List String) {M : ℚ} :
    ∀ (l : List Elem) (v : String),
      (∀ e ∈ l, lastTruthyAttr e attrs ≠ none → score e (e.attr "alt") < M) →
      extractImageLoop score base attrs l M (some v) = some v := by
  intro l
  induction l with
  | nil => intro v _; rfl
  | cons e rest ih =>
    intro v h
    rw [extractImageLoop]
    match ht : lastTruthyAttr e attrs with
    | none =>
      rw [imageAttrLoop_none score base e attrs M (some v) ht]
      exact ih v (fun x hx => h x (List.mem_cons_of_mem _ hx))
    | some w =>
      have hlt : score e (e.attr "alt") < M :=
        h e (List.mem_cons_self _ _) (by rw [ht]; simp)
      rw [imageAttrLoop_skip score base e hlt attrs (some v)]
      exact ih v (fun x hx => h x (List.mem_cons_of_mem _ hx))

theorem extractImageLoop_last_max (score : ScoreFn) (base : String)
    (attrs : List String) {M : ℚ} (b : Elem) (l3 : List Elem) (vb : String)
    (hvb : lastTruthyAttr b attrs = some vb)
    (hbM : score b (b.attr "alt") = M) (hM : M > 0.3)
    (hl3 : ∀ e ∈ l3, lastTruthyAttr e attrs ≠ none → score e (e.attr "alt") < M) :
    ∀ (l1 : List Elem) (bs : ℚ) (bv : Option String), bs ≤ M →
      (∀ e ∈ l1, lastTruthyAttr e attrs ≠ none → score e (e.attr "alt") ≤ M) →
      extractImageLoop score base attrs (l1 ++ b :: l3) bs bv =
        some (pyUrljoin base vb) := by
  intro l1
  induction l1 with
  | nil =>
    intro bs bv hbs _
    rw [List.nil_append, extractImageLoop,
      (imageAttrLoop_last score base b hbM hM attrs bs bv hbs).1 vb hvb]
    exact extractImageLoop_keep score base attrs l3 _ hl3
  | cons e l1' ih =>
    intro bs bv hbs hl1
    rw [List.cons_append, extractImageLoop]
    match ht : lastTruthyAttr e attrs with
    | none =>
      rw [imageAttrLoop_none score base e attrs bs bv ht]
      exact ih bs bv hbs (fun x hx => hl1 x (List.mem_cons_of_mem _ hx))
    | some w =>
      have hle : score e (e.attr "alt") ≤ M :=
        hl1 e (List.mem_cons_self _ _) (by rw [ht]; simp)
      have hbound : (imageAttrLoop score base e attrs bs bv).1 ≤ M :=
        imageAttrLoop_bound score base e hle attrs bs bv hbs
      exact ih _ _ hbound (fun x hx => hl1 x (List.mem_cons_of_mem _ hx))

/-! ## C3: tie-breaking asymmetry of the fuzzy-scored fallback -/

/-- C3: in the fuzzy-scored per-field fallback, when several elements
attain the same best score above the type's threshold, `_extract_text`
keeps the first such element in document order (an equal score never
replaces an earlier best), while `_extract_numeric`, `_extract_link` and
`_extract_image` use a greater-or-equal comparison so the last
maximal-scoring element wins; this holds for every node, field, score
function and document. -/
theorem analyzer_tie_breaking :
    (∀ (score : ScoreFn) (node : DomNode) (f : FieldSpec) (l1 l2 : List Elem)
        (a : Elem) (M : ℚ),
      node.elements = l1 ++ a :: l2 → a.text ≠ "" → score a a.text = M → M > 0.6 →
      (∀ e ∈ l1, e.text ≠ "" → score e e.text < M) →
      (∀ e ∈ l2, e.text ≠ "" → score e e.text ≤ M) →
      PageAnalyzer.extract_text score node f = some a.text) ∧
    (∀ (score : ScoreFn) (node : DomNode) (l1 l3 : List Elem) (b : Elem)
        (nb : String) (M : ℚ),
      node.elements = l1 ++ b :: l3 → b.text ≠ "" →
      numericSearch b.text.data = some nb → score b b.text = M → M > 0.45 →
      (∀ e ∈ l1, e.text ≠ "" → (numericSearch e.text.data).isSome →
        score e e.text ≤ M) →
      (∀ e ∈ l3, e.text ≠ "" → (numericSearch e.text.data).isSome →
        score e e.text < M) →
      PageAnalyzer.extract_numeric score node = some nb) ∧
    (∀ (score : ScoreFn) (node : DomNode) (base : String) (l1 l3 : List Elem)
        (b : Elem) (M : ℚ),
      node.anchors = l1 ++ b :: l3 → b.href ≠ none → b.href.getD "" ≠ "" →
      score b b.text = M → M > 0.4 →
      (∀ e ∈ l1, hasHref e = true → score e e.text ≤ M) →
      (∀ e ∈ l3, hasHref e = true → score e e.text < M) →
      PageAnalyzer.extract_link score node base =
        some (pyUrljoin base (b.href.getD ""))) ∧
    (∀ (score : ScoreFn) (node : DomNode) (f : FieldSpec) (base : String)
        (l1 l3 : List Elem) (b : Elem) (vb : String) (M : ℚ),
      node.images = l1 ++ b :: l3 →
      lastTruthyAttr b (if f.attribute_preferences ≠ [] then f.attribute_preferences
        else ["src", "data-src", "data-original"]) = some vb →
      score b (b.attr "alt") = M → M > 0.3 →
      (∀ e ∈ l1, lastTruthyAttr e (if f.attribute_preferences ≠ [] then
          f.attribute_preferences else ["src", "data-src", "data-original"]) ≠ none →
        score e (e.attr "alt") ≤ M) →
      (∀ e ∈ l3, lastTruthyAttr e (if f.attribute_preferences ≠ [] then
          f.attribute_preferences else ["src", "data-src", "data-original"]) ≠ none →
        score e (e.attr "alt") < M) →
      PageAnalyzer.extract_image score node f base = some (pyUrljoin base vb)) := by
  refine ⟨?_, ?_, ?_, ?_⟩
  · intro score node f l1 l2 a M helems ha haM hM hl1 hl2
    unfold PageAnalyzer.extract_text
    rw [helems, extractTextLoop_first_max score a l2 ha haM hM hl2 l1 0 none
      (lt_of_le_of_lt (by norm_num) hM) hl1]
  · intro score node l1 l3 b nb M helems hb hnb hbM hM hl1 hl3
    unfold PageAnalyzer.extract_numeric
    rw [helems, extractNumericLoop_last_max score b l3 nb hb hnb hbM hM hl3 l1 0 none
      (le_of_lt (lt_of_le_of_lt (by norm_num) hM)) hl1]
  · intro score node base l1 l3 b M hanch hbh hbne hbM hM hl1 hl3
    unfold PageAnalyzer.extract_link
    rw [hanch]
    exact extractLinkLoop_last_max score base b l3 hbh hbne hbM hM hl3 l1 0 none
      (le_of_lt (lt_of_le_of_lt (by norm_num) hM)) hl1
  · intro score node f base l1 l3 b vb M himgs hvb hbM hM hl1 hl3
    unfold PageAnalyzer.extract_image
    rw [himgs]
    exact extractImageLoop_last_max score base _ b l3 vb hvb hbM hM hl3 l1 0 none
      (le_of_lt (lt_of_le_of_lt (by norm_num) hM)) hl1

/-- C3 witness: concrete two-element ties for each extractor; the text
extractor keeps the first element, the numeric, link and image extractors
keep the last. -/
theorem analyzer_tie_breaking_witness :
    PageAnalyzer.extract_text (fun _ _ => (1 : ℚ))
      { elements := [{ text := "A" }, { text := "B" }], full_text := "A B" }
      { name := "title", synonyms := ["title"] } = some "A" ∧
    PageAnalyzer.extract_numeric (fun _ _ => (1 : ℚ))
      { elements := [{ text := "1" }, { text := "2" }], full_text := "1 2" } =
      some "2" ∧
    PageAnalyzer.extract_link (fun _ _ => (1 : ℚ))
      { elements := [], anchors := [{ text := "x", href := some "/a" },
        { text := "y", href := some "/b" }] } "https://c.com" =
      some "https://c.com/b" ∧
    PageAnalyzer.extract_image (fun _ _ => (1 : ℚ))
      { elements := [],
        images := [{ text := "", attrs := [("src", "/i1.png")] },
                   { text := "", attrs := [("src", "/i2.png"), ("data-src", "/i2b.png")] }] }
      { name := "image", synonyms := ["image"], value_type := "image" }
      "https://c.com" = some "https://c.com/i2b.png" := by
  refine ⟨?_, ?_, ?_, ?_⟩
  · exact analyzer_tie_breaking.1 (fun _ _ => (1 : ℚ))
      { elements := [{ text := "A" }, { text := "B" }], full_text := "A B" }
      { name := "title", synonyms := ["title"] }
      [] [{ text := "B" }] { text := "A" } 1
      rfl (by decide) rfl (by norm_num) (by simp)
      (fun e _ _ => le_refl 1)
  · exact (analyzer_tie_breaking.2.1 (fun _ _ => (1 : ℚ))
      { elements := [{ text := "1" }, { text := "2" }], full_text := "1 2" }
      [{ text := "1" }] [] { text := "2" } "2" 1
      rfl (by decide) (by decide) rfl (by norm_num)
      (fun e _ _ _ => le_refl 1) (fun e he => by simp at he))
  · exact (analyzer_tie_breaking.2.2.1 (fun _ _ => (1 : ℚ))
      { elements := [], anchors := [{ text := "x", href := some "/a" },
        { text := "y", href := some "/b" }] } "https://c.com"
      [{ text := "x", href := some "/a" }] [] { text := "y", href := some "/b" } 1
      rfl (by decide) (by decide) rfl (by norm_num)
      (fun e _ _ => le_refl 1) (fun e he => by simp at he)).trans (by decide)
  · exact (analyzer_tie_breaking.2.2.2 (fun _ _ => (1 : ℚ))
      { elements := [],
        images := [{ text := "", attrs := [("src", "/i1.png")] },
                   { text := "", attrs := [("src", "/i2.png"), ("data-src", "/i2b.png")] }] }
      { name := "image", synonyms := ["image"], value_type := "image" }
      "https://c.com"
      [{ text := "", attrs := [("src", "/i1.png")] }] []
      { text := "", attrs := [("src", "/i2.png"), ("data-src", "/i2b.png")] }
      "/i2b.png" 1
      rfl (by decide) rfl (by norm_num)
      (fun e _ _ => le_refl 1) (fun e he => by simp at he)).trans (by decide)

/-! ## URL-scanner lemmas (towards C1) -/

theorem urlStartAt_head {c : Char} {r : List Char}
    (h : urlStartAt (c :: r) = true) : lowChar c = 'h' := by
  unfold urlStartAt at h
  simp only [Bool.or_eq_true, Bool.and_eq_true, decide_eq_true_eq] at h
  rcases h with ⟨h, _⟩ | ⟨h, _⟩
  · rw [show List.take 8 (c :: r) = c :: List.take 7 r from rfl, List.map_cons] at h
    injection h with h1 _
  · rw [show List.take 7 (c :: r) = c :: List.take 6 r from rfl, List.map_cons] at h
    injection h with h1 _

theorem startsL_of_take :
    ∀ (pat m : List Char), m.take pat.length = pat →
      isSubstrOf.startsL pat m = true := by
  intro pat
  induction pat with
  | nil => intro m _; rfl
  | cons a as ih =>
    intro m h
    match m with
    | [] => simp at h
    | b :: m' =>
      rw [List.length_cons, List.take_succ_cons] at h
      injection h with h1 h2
      subst h1
      simp [isSubstrOf.startsL, ih m' h2]

theorem urlStartAt_substr {c : Char} {r : List Char}
    (h : urlStartAt (c :: r) = true) :
    isSubstrOf "http://".data ((c :: r).map lowChar) = true ∨
    isSubstrOf "https://".data ((c :: r).map lowChar) = true := by
  unfold urlStartAt at h
  simp only [Bool.or_eq_true, Bool.and_eq_true, decide_eq_true_eq] at h
  rcases h with ⟨h, _⟩ | ⟨h, _⟩
  · right
    have htake : ((c :: r).map lowChar).take ("https://".data.length) =
        "https://".data := by
      rw [← List.map_take]
      rw [show "https://".data.length = 8 from rfl]
      exact h
    have hs := startsL_of_take _ _ htake
    rw [List.map_cons] at hs ⊢
    unfold isSubstrOf
    rw [hs]
    rfl
  · left
    have htake : ((c :: r).map lowChar).take ("http://".data.length) =
        "http://".data := by
      rw [← List.map_take]
      rw [show "http://".data.length = 7 from rfl]
      exact h
    have hs := startsL_of_take _ _ htake
    rw [List.map_cons] at hs ⊢
    unfold isSubstrOf
    rw [hs]
    rfl

theorem isSubstrOf_tail {pat : List Char} {c : Char} {r : List Char}
    (h : isSubstrOf pat (c :: r) = false) : isSubstrOf pat r = false := by
  unfold isSubstrOf at h
  rcases Bool.or_eq_false_iff.mp h with ⟨_, h2⟩
  exact h2

theorem scanUrlsAux_nil_of_no_http :
    ∀ l : List Char,
      isSubstrOf "http://".data (l.map lowChar) = false →
      isSubstrOf "https://".data (l.map lowChar) = false →
      scanUrlsAux false [] l = [] := by
  intro l
  induction l with
  | nil => intro _ _; rfl
  | cons c r ih =>
    intro h1 h2
    rw [scanUrlsAux]
    have hstart : urlStartAt (c :: r) = false := by
      by_contra hcon
      rcases urlStartAt_substr (Bool.of_not_eq_false hcon) with hs | hs
      · rw [hs] at h1; exact absurd h1 (by decide)
      · rw [hs] at h2; exact absurd h2 (by decide)
    rw [if_neg (by simp)]
    rw [if_neg (by simp [hstart])]
    rw [List.map_cons] at h1 h2
    exact ih (isSubstrOf_tail h1) (isSubstrOf_tail h2)

theorem scanUrlsAux_head_h :
    ∀ (l : List Char) (b : Bool) (cur : List Char),
      (b = true → ∃ h, cur.getLast? = some h ∧ lowChar h = 'h') →
      ∀ m ∈ scanUrlsAux b cur l, ∃ h, m.head? = some h ∧ lowChar h = 'h' := by
  intro l
  induction l with
  | nil =>
    intro b cur hinv m hm
    cases b with
    | false => simp [scanUrlsAux] at hm
    | true =>
      rw [scanUrlsAux, if_pos rfl] at hm
      rw [List.mem_singleton] at hm
      subst hm
      obtain ⟨h, hlast, hlow⟩ := hinv rfl
      exact ⟨h, by rw [List.head?_reverse]; exact hlast, hlow⟩
  | cons c r ih =>
    intro b cur hinv m hm
    cases b with
    | true =>
      rw [scanUrlsAux, if_pos rfl] at hm
      by_cases hsp : pyIsSpace c = true
      · rw [if_pos hsp] at hm
        rcases List.mem_cons.mp hm with h | h
        · subst h
          obtain ⟨h, hlast, hlow⟩ := hinv rfl
          exact ⟨h, by rw [List.head?_reverse]; exact hlast, hlow⟩
        · exact ih false [] (by simp) m h
      · rw [if_neg hsp] at hm
        refine ih true (c :: cur) ?_ m hm
        intro _
        obtain ⟨h, hlast, hlow⟩ := hinv rfl
        refine ⟨h, ?_, hlow⟩
        match cur, hlast with
        | x :: t, hlast => rw [List.getLast?_cons_cons]; exact hlast
    | false =>
      rw [scanUrlsAux, if_neg (by simp)] at hm
      by_cases hstart : urlStartAt (c :: r) = true
      · rw [if_pos hstart] at hm
        refine ih true [c] ?_ m hm
        intro _
        exact ⟨c, rfl, urlStartAt_head hstart⟩
      · rw [if_neg hstart] at hm
        exact ih false [] (by simp) m hm

theorem lowChar_h_not_strip {h : Char} (hlow : lowChar h = 'h') :
    urlStripChars.contains h = false := by
  by_contra hcon
  have hmem : h ∈ urlStripChars := List.elem_iff.mp (Bool.of_not_eq_false hcon)
  simp only [urlStripChars, List.mem_cons, List.not_mem_nil, or_false] at hmem
  rcases hmem with rfl | rfl | rfl | rfl | rfl <;> exact absurd hlow (by decide)

theorem rstripSet_ne_nil {l : List Char} {h : Char}
    (hhead : l.head? = some h) (hkeep : urlStripChars.contains h = false) :
    rstripSet urlStripChars l ≠ [] := by
  intro hnil
  unfold rstripSet at hnil
  have hdrop : l.reverse.dropWhile (fun c => urlStripChars.contains c) = [] := by
    have := congrArg List.reverse hnil
    simpa using this
  rw [List.dropWhile_eq_nil_iff] at hdrop
  have hmem : h ∈ l := by
    match l, hhead with
    | x :: t, hhead =>
      injection hhead with hx
      subst hx
      exact List.mem_cons_self _ _
  have := hdrop h (by simpa using hmem)
  rw [hkeep] at this
  exact Bool.false_ne_true this

theorem extract_urls_ne_empty (prompt : String) :
    ∀ u ∈ extract_urls prompt, u ≠ "" := by
  intro u hu
  unfold extract_urls at hu
  obtain ⟨m, hm, hmu⟩ := List.mem_map.mp hu
  obtain ⟨h, hhead, hlow⟩ := scanUrlsAux_head_h prompt.data false [] (by simp) m hm
  have hne : rstripSet urlStripChars m ≠ [] :=
    rstripSet_ne_nil hhead (lowChar_h_not_strip hlow)
  subst hmu
  intro hcon
  exact hne (by simpa [String.ext_iff] using hcon)

/-! ## Merged-intent seed lemmas (towards C1) -/

theorem merge_seed (self : IntentSuggestion) (o : Option IntentSuggestion) :
    (self.merge o).seed_url =
      match o with
      | none => self.seed_url
      | some o => if truthyOpt o.seed_url then o.seed_url else self.seed_url := by
  cases o with
  | none => rfl
  | some o =>
    simp only [IntentSuggestion.merge]
    split_ifs <;> rfl

theorem mergedIntent_seed (prompt : String) (mp : Option Int)
    (mr : Option IntentSuggestion) :
    (mergedIntent prompt mp mr).seed_url =
      match mr with
      | none => (extract_urls prompt).head?
      | some s => if truthyOpt s.seed_url then s.seed_url
                  else (extract_urls prompt).head? := by
  unfold mergedIntent
  cases mr with
  | none =>
    cases mp with
    | none => rw [merge_seed]; rfl
    | some m => show (IntentSuggestion.merge _ none).seed_url = _; rw [merge_seed]; rfl
  | some s =>
    cases mp with
    | none => rw [merge_seed]; rfl
    | some m =>
      show (IntentSuggestion.merge _ (some _)).seed_url = _
      rw [merge_seed]
      rfl

theorem mergedIntent_seed_not_empty (prompt : String) (mp : Option Int)
    (mr : Option IntentSuggestion) :
    (mergedIntent prompt mp mr).seed_url ≠ some "" := by
  rw [mergedIntent_seed]
  have hheur : (extract_urls prompt).head? ≠ some "" := by
    match hu : extract_urls prompt with
    | [] => simp
    | u :: rest =>
      have := extract_urls_ne_empty prompt u (by rw [hu]; exact List.mem_cons_self _ _)
      simpa using this
  cases mr with
  | none => exact hheur
  | some s =>
    simp only []
    by_cases ht : truthyOpt s.seed_url
    · rw [if_pos ht]
      unfold truthyOpt at ht
      match hs : s.seed_url with
      | none => rw [hs] at ht; exact absurd ht (by simp)
      | some v =>
        rw [hs] at ht
        simp only [decide_eq_true_eq] at ht
        simpa using ht
    · rw [if_neg ht]
      exact hheur

/-! ## C1: planner failure condition -/

/-- C1: `plan` succeeds exactly when the prompt is not empty or
whitespace-only and a seed URL is resolved after merging the heuristic
intent with the external suggestion; in particular it fails for every
prompt without an `http(s)://` substring when the suggestion bears no URL,
and on success the plan's seed URL is non-empty. -/
theorem plan_invalid_request (prompt : String) (mp : Option Int)
    (mr : Option IntentSuggestion) :
    ((PromptPlanner.plan prompt mp mr).isOk = true ↔
      (pyStrip prompt ≠ "" ∧ (mergedIntent prompt mp mr).seed_url ≠ none)) ∧
    ((pyContains (pyLower prompt) "http://" = false ∧
      pyContains (pyLower prompt) "https://" = false ∧
      (∀ s, mr = some s → truthyOpt s.seed_url = false)) →
      (PromptPlanner.plan prompt mp mr).isOk = false) ∧
    (∀ p, PromptPlanner.plan prompt mp mr = .ok p → p.seed_url ≠ "") := by
  have hiff : (PromptPlanner.plan prompt mp mr).isOk = true ↔
      (pyStrip prompt ≠ "" ∧ (mergedIntent prompt mp mr).seed_url ≠ none) := by
    unfold PromptPlanner.plan
    by_cases hA : prompt = "" ∨ pyStrip prompt = ""
    · rw [if_pos hA]
      simp only [Except.isOk, Except.toBool]
      constructor
      · intro h; exact absurd h (by simp)
      · rintro ⟨hs, _⟩
        rcases hA with h | h
        · exact absurd (by rw [h]; rfl) hs
        · exact absurd h hs
    · rw [if_neg hA]
      push_neg at hA
      by_cases hB : truthyOpt (mergedIntent prompt mp mr).seed_url
      · rw [if_neg (by simpa using hB)]
        simp only [Except.isOk, Except.toBool]
        refine ⟨fun _ => ⟨hA.2, ?_⟩, fun _ => trivial⟩
        unfold truthyOpt at hB
        match hs : (mergedIntent prompt mp mr).seed_url with
        | none => rw [hs] at hB; exact absurd hB (by simp)
        | some v => simp
      · rw [if_pos (by simpa using hB)]
        simp only [Except.isOk, Except.toBool]
        constructor
        · intro h; exact absurd h (by simp)
        · rintro ⟨_, hne⟩
          unfold truthyOpt at hB
          match hs : (mergedIntent prompt mp mr).seed_url with
          | none => exact absurd hs hne
          | some v =>
            rw [hs] at hB
            simp only [decide_eq_true_eq] at hB
            have : v = "" := by by_contra hv; exact hB hv
            subst this
            exact absurd hs (mergedIntent_seed_not_empty prompt mp mr)
  refine ⟨hiff, ?_, ?_⟩
  · rintro ⟨h1, h2, h3⟩
    have hurls : extract_urls prompt = [] := by
      unfold extract_urls
      rw [scanUrlsAux_nil_of_no_http prompt.data h1 h2]
      rfl
    have hseed : (mergedIntent prompt mp mr).seed_url = none := by
      rw [mergedIntent_seed]
      cases mr with
      | none => rw [hurls]; rfl
      | some s =>
        simp only []
        rw [if_neg (by simp [h3 s rfl]), hurls]
        rfl
    rw [Bool.eq_false_iff]
    intro hok
    exact (hiff.mp hok).2 hseed
  · intro p hp
    unfold PromptPlanner.plan at hp
    by_cases hA : prompt = "" ∨ pyStrip prompt = ""
    · rw [if_pos hA] at hp; exact absurd hp (by simp)
    · rw [if_neg hA] at hp
      by_cases hB : truthyOpt (mergedIntent prompt mp mr).seed_url
      · rw [if_neg (by simpa using hB)] at hp
        injection hp with hp
        subst hp
        unfold truthyOpt at hB
        match hs : (mergedIntent prompt mp mr).seed_url with
        | none => rw [hs] at hB; exact absurd hB (by simp)
        | some v =>
          rw [hs] at hB
          simp only [decide_eq_true_eq] at hB
          simpa using hB
      · rw [if_pos (by simpa using hB)] at hp
        exact absurd hp (by simp)

/-- C1 witness: a URL-free prompt fails, and a prompt carrying a URL
produces a plan with that non-empty seed URL. -/
theorem plan_invalid_request_witness :
    (PromptPlanner.plan "collect all the headlines" none none).isOk = false ∧
    (PromptPlanner.plan "Get title from https://example.com/list" none none).isOk
      = true := by
  constructor
  · exact (plan_invalid_request "collect all the headlines" none none).2.1
      ⟨by decide, by decide, fun s hs => by cases hs⟩
  · exact (plan_invalid_request "Get title from https://example.com/list" none
      none).1.mpr ⟨by decide, by decide⟩

/-! ## C10: plan fields are non-empty and pairwise distinct -/

theorem resolveStep_nodup (lib : List (String × FieldSpec)) (acc : List FieldSpec)
    (name : String) (h : (acc.map (fun f => f.name)).Nodup) :
    ((resolveStep lib acc name).map (fun f => f.name)).Nodup := by
  have happend : ∀ f : FieldSpec, f.name ∉ acc.map (fun g => g.name) →
      ((acc ++ [f]).map (fun g => g.name)).Nodup := by
    intro f hnot
    rw [List.map_append, List.nodup_append]
    refine ⟨h, by simp, ?_⟩
    intro x hx
    simp only [List.map_cons, List.map_nil, List.mem_singleton]
    intro hxe
    subst hxe
    exact hnot hx
  have hsyn : ((resolveStep.resolveSyn lib acc name).map (fun f => f.name)).Nodup := by
    unfold resolveStep.resolveSyn
    split
    · next nf hf =>
      have hpred := List.find?_some hf
      simp only [Bool.and_eq_true, decide_eq_true_eq] at hpred
      apply happend
      intro hmem
      obtain ⟨spec, hspec, heq⟩ := List.mem_map.mp hmem
      have hclone : (nf.2.clone).name = nf.2.name := rfl
      rw [hclone] at heq
      have hany : (acc.any fun spec => decide (spec.name = nf.2.name)) = true :=
        List.any_eq_true.mpr ⟨spec, hspec, by simpa using heq⟩
      rw [hany] at hpred
      exact absurd hpred.2 (by simp)
    · next => exact h
  unfold resolveStep
  split
  · next candidate hc =>
    split_ifs with hany
    · exact hsyn
    · apply happend
      intro hmem
      obtain ⟨spec, hspec, heq⟩ := List.mem_map.mp hmem
      have hclone : (candidate.clone).name = candidate.name := rfl
      rw [hclone] at heq
      exact absurd (List.any_eq_true.mpr ⟨spec, hspec, by simpa using heq⟩) hany
  · next => exact hsyn

theorem resolve_fields_nodup (lib : List (String × FieldSpec)) :
    ∀ (names : List String) (acc : List FieldSpec),
      (acc.map (fun f => f.name)).Nodup →
      (((names.foldl (resolveStep lib) acc)).map (fun f => f.name)).Nodup := by
  intro names
  induction names with
  | nil => intro acc h; exact h
  | cons n rest ih =>
    intro acc h
    exact ih (resolveStep lib acc n) (resolveStep_nodup lib acc n h)

/-- C10: every plan returned by a successful planner call has a non-empty
list of fields with pairwise distinct names; when no requested name
resolves, the default field set (title, description, url) is
substituted. -/
theorem plan_fields_invariant (prompt : String) (mp : Option Int)
    (mr : Option IntentSuggestion) (p : ScrapePlan)
    (h : PromptPlanner.plan prompt mp mr = .ok p) :
    p.fields ≠ [] ∧ (p.fields.map (fun f => f.name)).Nodup ∧
    (resolve_fields default_field_library (mergedIntent prompt mp mr).field_names = [] →
      p.fields.map (fun f => f.name) = ["title", "description", "url"]) := by
  unfold PromptPlanner.plan at h
  by_cases hA : prompt = "" ∨ pyStrip prompt = ""
  · rw [if_pos hA] at h; exact absurd h (by simp)
  · rw [if_neg hA] at h
    by_cases hB : truthyOpt (mergedIntent prompt mp mr).seed_url
    · rw [if_neg (by simpa using hB)] at h
      injection h with h
      have hfields : p.fields =
          (if resolve_fields default_field_library
              (mergedIntent prompt mp mr).field_names = [] then
            default_fields.filterMap (fun n =>
              (lookupLib default_field_library n).map (fun f => f.clone))
          else resolve_fields default_field_library
            (mergedIntent prompt mp mr).field_names) := by
        rw [← h]
      by_cases hres : resolve_fields default_field_library
          (mergedIntent prompt mp mr).field_names = []
      · rw [hfields, if_pos hres]
        refine ⟨by decide, by decide, fun _ => by decide⟩
      · rw [hfields, if_neg hres]
        exact ⟨hres,
          resolve_fields_nodup default_field_library _ [] List.nodup_nil,
          fun hcon => absurd hcon hres⟩
    · rw [if_pos (by simpa using hB)] at h
      exact absurd h (by simp)

/-- C10 witness: a concrete successful plan has non-empty, duplicate-free
fields. -/
theorem plan_fields_invariant_witness :
    (PromptPlanner.plan "Get title and price from https://example.com/list" none
      none).toOption.elim False
      (fun p => p.fields ≠ [] ∧ (p.fields.map (fun f => f.name)).Nodup) := by
  match hp : PromptPlanner.plan "Get title and price from https://example.com/list"
      none none with
  | .error e =>
    have : (PromptPlanner.plan "Get title and price from https://example.com/list"
        none none).isOk = true := by decide
    rw [hp] at this
    exact absurd this (by simp [Except.isOk, Except.toBool])
  | .ok p =>
    simp only [Except.toOption, Option.elim]
    have := plan_fields_invariant
      "Get title and price from https://example.com/list" none none p hp
    exact ⟨this.1, this.2.1⟩

end LlmScrape
